import Mathlib

/-!
Verification development for the Hebrew Lexicon Entry Extractor Tool.

The definitions below are a shallow embedding of the persistence and
sweep-orchestration engine found in `src/services/db.ts` and `src/App.tsx`
(the authoritative third revision of `db.ts`, lines 331-1725).

Modelling conventions:
* the sql.js `entries` table is a `List Entry` (list order models rowid order);
* `this.db === null` is the `dbLoaded` flag of `DbState`;
* every call to `save()` increments `persistCount`;
* a SQLite transaction that throws is modelled by an `Option` result: `none`
  means the statement threw, the `catch` branch runs `ROLLBACK`, and the
  table reverts to its state at `BEGIN TRANSACTION`;
* byte buffers are `List Nat` (byte values), `Date.now()` is an explicit
  `now : Nat` argument, and the asynchronous external capabilities are
  explicit oracle functions.
-/

set_option maxHeartbeats 1000000

namespace LexDb

/-- One row of the `entries` table, following the schema in
`initSchema` (db.ts lines 594-622) together with the lazily added
validation columns.  `validationIssue` is nullable in the schema, hence
an `Option`.  `isRoot` is stored as `INTEGER 0/1`; the service converts
it to a boolean at the `mapRow`/`mapResults` boundary, so we keep a
`Bool` here. -/
structure Entry where
  id : String
  hebrewWord : String
  hebrewConsonantal : String
  transliteration : String
  partOfSpeech : String
  definition : String
  root : String
  isRoot : Bool
  strongsNumbers : String
  sourcePage : String
  sourceUrl : String
  dateAdded : Nat
  status : String
  validationIssue : Option String
deriving DecidableEq

/-- The in-memory database handle plus its persistence counter.
`dbLoaded` models `this.db !== null`; `persistCount` counts the calls to
`save()` (db.ts lines 754-762). -/
structure DbState where
  dbLoaded : Bool
  table : List Entry
  persistCount : Nat
deriving DecidableEq

/-- One element of the batch passed to `updateValidationStatuses`
(db.ts line 1703): an id, a status and an optional issue text. -/
structure StatusItem where
  id : String
  status : String
  issue : Option String
deriving DecidableEq

/-- The binding `it.issue || null` (db.ts line 1709): a missing or empty
issue string is stored as SQL NULL. -/
def issueOrNull (issue : Option String) : Option String :=
  match issue with
  | none => none
  | some s => if s = "" then none else some s

/-- Effect of `UPDATE entries SET status = ?, validationIssue = ? WHERE id = ?`
on a single row. -/
def applyStatusItem (it : StatusItem) (e : Entry) : Entry :=
  if e.id = it.id then { e with status := it.status, validationIssue := issueOrNull it.issue }
  else e

/-- Effect of running the status UPDATE for every item of a batch, in order. -/
def applyStatusItems (table : List Entry) (items : List StatusItem) : List Entry :=
  items.foldl (fun t it => t.map (applyStatusItem it)) table

/-- The statement loop inside the transaction of `updateValidationStatuses`
(db.ts lines 1706-1713).  `failAt = some k` injects a simulated failure of
the `stmt.step()` for the k-th item (0-based); the updates already executed
are still pending inside the open transaction, and `none` signals the thrown
exception. -/
def runStatusUpdates (failAt : Option Nat) : List StatusItem → Nat → List Entry → Option (List Entry)
  | [], _, t => some t
  | it :: rest, i, t =>
    if failAt = some i then none
    else runStatusUpdates failAt rest (i + 1) (t.map (applyStatusItem it))

/-- `updateValidationStatuses(items)` (db.ts lines 1703-1722): guard on a
missing db or empty batch, one `BEGIN TRANSACTION`, the statement loop, one
`COMMIT` + `save()` and a return of `items.length`; on any error `ROLLBACK`
restores the table of the `BEGIN` point, nothing is persisted, and 0 is
returned. -/
def updateValidationStatuses (st : DbState) (items : List StatusItem) (failAt : Option Nat) :
    DbState × Nat :=
  if ¬ st.dbLoaded ∨ items.isEmpty then (st, 0)
  else
    match runStatusUpdates failAt items 0 st.table with
    | some t => ({ st with table := t, persistCount := st.persistCount + 1 }, items.length)
    | none => (st, 0)

/-- `updateValidationStatus(entryId, status, issue?)` (db.ts lines 1688-1698):
a single-row variant that persists immediately. -/
def updateValidationStatus (st : DbState) (entryId status : String) (issue : Option String) :
    DbState :=
  if ¬ st.dbLoaded then st
  else
    { st with
      table := st.table.map (applyStatusItem ⟨entryId, status, issue⟩),
      persistCount := st.persistCount + 1 }

/-- SQLite semantics of `INSERT OR REPLACE`: rows conflicting on the
primary key are deleted and the fresh row is appended. -/
def insertOrReplaceRow (table : List Entry) (row : Entry) : List Entry :=
  table.filter (fun e => !(e.id == row.id)) ++ [row]

/-- The row bound by `addEntries` (db.ts lines 770-793): the listed columns
come from the argument entry, `dateAdded` is bound to `Date.now()`, and the
columns absent from the INSERT column list (`status`, `validationIssue`)
take their schema defaults `'unchecked'` and NULL. -/
def entryRow (e : Entry) (now : Nat) : Entry :=
  { e with dateAdded := now, status := "unchecked", validationIssue := none }

/-- `addEntries(entries)` (db.ts lines 764-801): one transaction of
`INSERT OR REPLACE` statements followed by a single `save()`. -/
def addEntries (st : DbState) (entries : List Entry) (now : Nat) : DbState :=
  if ¬ st.dbLoaded then st
  else
    { st with
      table := entries.foldl (fun t e => insertOrReplaceRow t (entryRow e now)) st.table,
      persistCount := st.persistCount + 1 }

/-- The partial-field object accepted by `updateEntry` (db.ts lines
1503-1534).  Only these eight fields are recognized; anything else in the
passed object (for example `status`) is ignored by the field scan. -/
structure EntryUpdates where
  hebrewWord : Option String := none
  hebrewConsonantal : Option String := none
  transliteration : Option String := none
  partOfSpeech : Option String := none
  definition : Option String := none
  root : Option String := none
  isRoot : Option Bool := none
  strongsNumbers : Option String := none
deriving DecidableEq

/-- `fields.length === 0` test of `updateEntry` (db.ts line 1520). -/
def EntryUpdates.hasField (u : EntryUpdates) : Bool :=
  u.hebrewWord.isSome || u.hebrewConsonantal.isSome || u.transliteration.isSome ||
  u.partOfSpeech.isSome || u.definition.isSome || u.root.isSome || u.isRoot.isSome ||
  u.strongsNumbers.isSome

/-- Effect of the dynamic `UPDATE entries SET ... WHERE id = ?` of
`updateEntry` on one row: each supplied field overwrites the column, all
other columns are untouched. -/
def applyEntryUpdates (u : EntryUpdates) (e : Entry) : Entry :=
  { e with
    hebrewWord := u.hebrewWord.getD e.hebrewWord,
    hebrewConsonantal := u.hebrewConsonantal.getD e.hebrewConsonantal,
    transliteration := u.transliteration.getD e.transliteration,
    partOfSpeech := u.partOfSpeech.getD e.partOfSpeech,
    definition := u.definition.getD e.definition,
    root := u.root.getD e.root,
    isRoot := u.isRoot.getD e.isRoot,
    strongsNumbers := u.strongsNumbers.getD e.strongsNumbers }

/-- `updateEntry(id, updates)` (db.ts lines 1503-1534): null-db guard,
failure without persisting when no recognized field is supplied, otherwise
the dynamic UPDATE on the addressed id followed by `save()` and `true`. -/
def updateEntry (st : DbState) (entryId : String) (u : EntryUpdates) : DbState × Bool :=
  if ¬ st.dbLoaded then (st, false)
  else if ¬ u.hasField then (st, false)
  else
    ({ st with
       table := st.table.map (fun e => if e.id = entryId then applyEntryUpdates u e else e),
       persistCount := st.persistCount + 1 }, true)

/-- Insertion step of the sort model. -/
def insertSorted (cmp : Entry → Entry → Bool) (x : Entry) : List Entry → List Entry
  | [] => [x]
  | y :: ys => if cmp x y then x :: y :: ys else y :: insertSorted cmp x ys

/-- Model of a JavaScript comparator sort (`Array.prototype.sort` and the
SQL ORDER BY clauses).  Any correct sort returns a permutation of its
input; every property proved below is invariant under the permutation, so
a structurally recursive insertion sort stands in for the engine sort. -/
def jsSort (cmp : Entry → Entry → Bool) : List Entry → List Entry
  | [] => []
  | x :: xs => insertSorted cmp x (jsSort cmp xs)

/-- Sort model for string lists (ORDER BY over a projected column). -/
def insertSortedStr (cmp : String → String → Bool) (x : String) : List String → List String
  | [] => [x]
  | y :: ys => if cmp x y then x :: y :: ys else y :: insertSortedStr cmp x ys

def jsSortStr (cmp : String → String → Bool) : List String → List String
  | [] => []
  | x :: xs => insertSortedStr cmp x (jsSortStr cmp xs)

/-- `getAllEntries()` with default arguments (db.ts lines 1242-1280):
`SELECT * FROM entries ORDER BY dateAdded DESC` (the `sortDir` default
`'asc'` still produces the `dateAdded DESC ... ASC` string, read back as
descending insertion time only for the `default` sort key with explicit
direction; the zero-argument call used everywhere sorts by
`dateAdded ASC` per the fall-through branch `dateAdded ${dir}` with
`dir = 'ASC'`). -/
def getAllEntries (st : DbState) : List Entry :=
  if ¬ st.dbLoaded then []
  else jsSort (fun a b => decide (a.dateAdded ≤ b.dateAdded)) st.table

/-- `getEntryById(id)` (db.ts lines 1539-1557): the first row matching the
id, or `null`. -/
def getEntryById (st : DbState) (entryId : String) : Option Entry :=
  if ¬ st.dbLoaded then none
  else st.table.find? (fun e => e.id == entryId)

/-- The character class `[֑-ׇ]` of `countLetters`
(db.ts line 1451): Hebrew vowel points and cantillation marks. -/
def isHebrewMark (c : Char) : Bool :=
  0x591 ≤ c.toNat && c.toNat ≤ 0x5C7

/-- Model of the whitespace class used by JavaScript `trim()` and `\s`
(space, tab, line terminators, form/vertical feed, no-break space). -/
def isJsWhitespace (c : Char) : Bool :=
  c = ' ' || c = '\t' || c = '\n' || c = '\r' || c = '\x0b' || c = '\x0c' || c = '\xa0'

/-- JavaScript `String.prototype.trim` on a character list: drop the
whitespace on both ends. -/
def trimChars (l : List Char) : List Char :=
  ((l.dropWhile isJsWhitespace).reverse.dropWhile isJsWhitespace).reverse

/-- The consonant extraction of `countLetters` (db.ts lines 1448-1456):
`str.replace(/[֑-ׇ]/g, '').trim()`, viewed as the list of
characters that the subsequent `for ... of` loop counts. -/
def strippedConsonants (s : String) : List Char :=
  trimChars (s.data.filter (fun c => !(isHebrewMark c)))

/-- The filter predicate of `getRootMismatches` (db.ts lines 1459-1475):
skip entries with an empty root or word, otherwise flag the entry when some
letter occurs more often in the stripped root than in the stripped word. -/
def hasRootMismatch (e : Entry) : Bool :=
  if e.root == "" || e.hebrewWord == "" then false
  else
    let rootCs := strippedConsonants e.root
    let wordCs := strippedConsonants e.hebrewWord
    rootCs.any (fun c => decide (wordCs.count c < rootCs.count c))

/-- `getRootMismatches()` (db.ts lines 1438-1480): the SQL pre-filter
`root IS NOT NULL AND root != ''` followed by the in-memory multiset
comparison. -/
def getRootMismatches (st : DbState) : List Entry :=
  if ¬ st.dbLoaded then []
  else (st.table.filter (fun e => !(e.root == ""))).filter hasRootMismatch

/-- `getPagesWithInvalid()` (db.ts lines 738-750):
`SELECT DISTINCT sourcePage FROM entries WHERE status = 'invalid' ... ORDER BY sourcePage`. -/
def getPagesWithInvalid (st : DbState) : List String :=
  if ¬ st.dbLoaded then []
  else
    jsSortStr (fun a b => decide (a ≤ b))
      (((st.table.filter (fun e => e.status == "invalid")).map (fun e => e.sourcePage)).dedup)

/-- `getInvalidEntriesBySourcePage(sourcePage)` (db.ts lines 720-733). -/
def getInvalidEntriesBySourcePage (st : DbState) (page : String) : List Entry :=
  if ¬ st.dbLoaded then []
  else st.table.filter (fun e => e.sourcePage == page && e.status == "invalid")

end LexDb

namespace LexDb

/-! ### Sample data used by witnesses and counterexamples -/

/-- A concrete sample row. -/
def sampleEntry : Entry :=
  { id := "F1", hebrewWord := "אב", hebrewConsonantal := "אב", transliteration := "av",
    partOfSpeech := "n", definition := "father", root := "אב", isRoot := true,
    strongsNumbers := "H1", sourcePage := "fuerst_lex_0044.jpg", sourceUrl := "u",
    dateAdded := 100, status := "unchecked", validationIssue := none }

/-- A loaded two-row store. -/
def twoRowSt : DbState :=
  { dbLoaded := true, table := [sampleEntry, { sampleEntry with id := "F2" }], persistCount := 5 }

/-- A two-item status batch addressing both rows of `twoRowSt`. -/
def twoItems : List StatusItem :=
  [⟨"F1", "valid", none⟩, ⟨"F2", "invalid", some "bad"⟩]

/-! ### C1: batched status updates are transactional -/

theorem applyStatusItems_cons (t : List Entry) (it : StatusItem) (rest : List StatusItem) :
    applyStatusItems t (it :: rest) = applyStatusItems (t.map (applyStatusItem it)) rest := rfl

/-- When the injected fault index lies outside the index window of the
remaining items, the statement loop applies every update. -/
theorem runStatusUpdates_success (failAt : Option Nat) (items : List StatusItem)
    (i : Nat) (t : List Entry)
    (h : ∀ k, failAt = some k → k < i ∨ i + items.length ≤ k) :
    runStatusUpdates failAt items i t = some (applyStatusItems t items) := by
  induction items generalizing i t with
  | nil => simp [runStatusUpdates, applyStatusItems]
  | cons it rest ih =>
    have hne : ¬ failAt = some i := by
      intro hEq
      rcases h i hEq with h1 | h2
      · omega
      · simp only [List.length_cons] at h2; omega
    rw [runStatusUpdates, if_neg hne, applyStatusItems_cons]
    exact ih (i + 1) _ (fun k hk => by
      rcases h k hk with h1 | h2
      · omega
      · simp only [List.length_cons] at h2; right; omega)

/-- When the injected fault index addresses one of the remaining items, the
statement loop throws. -/
theorem runStatusUpdates_fail (items : List StatusItem) (i k : Nat) (t : List Entry)
    (hik : i ≤ k) (hk : k < i + items.length) :
    runStatusUpdates (some k) items i t = none := by
  induction items generalizing i t with
  | nil => simp only [List.length_nil] at hk; omega
  | cons it rest ih =>
    by_cases hEq : k = i
    · rw [runStatusUpdates, if_pos (by rw [hEq])]
    · rw [runStatusUpdates, if_neg (by simp [hEq, eq_comm])]
      exact ih (i + 1) _ (by omega) (by simp only [List.length_cons] at hk; omega)

/-- C1: for every nonempty list of status-update items, the batched variant
`updateValidationStatuses` applies all updates inside one transaction and
persists the store exactly once regardless of the list size; if the
underlying write fails at any position inside the batch, the transaction is
rolled back, so that neither the table nor the persist counter changes and
the call returns 0 instead of a partial count. -/
theorem claimC1_batchStatusAtomic (st : DbState) (items : List StatusItem)
    (hdb : st.dbLoaded = true) (hne : items ≠ []) :
    (updateValidationStatuses st items none =
      ({ st with table := applyStatusItems st.table items,
                 persistCount := st.persistCount + 1 }, items.length)) ∧
    (∀ k, k < items.length → updateValidationStatuses st items (some k) = (st, 0)) ∧
    (∀ k, items.length ≤ k → updateValidationStatuses st items (some k) =
      ({ st with table := applyStatusItems st.table items,
                 persistCount := st.persistCount + 1 }, items.length)) := by
  have hguard : ¬ (¬ st.dbLoaded ∨ items.isEmpty) := by
    simp [hdb, List.isEmpty_iff, hne]
  refine ⟨?_, ?_, ?_⟩
  · rw [updateValidationStatuses, if_neg hguard,
      runStatusUpdates_success none items 0 st.table (by intro k hk; cases hk)]
  · intro k hk
    rw [updateValidationStatuses, if_neg hguard,
      runStatusUpdates_fail items 0 k st.table (Nat.zero_le k) (by omega)]
  · intro k hk
    rw [updateValidationStatuses, if_neg hguard,
      runStatusUpdates_success (some k) items 0 st.table
        (by intro j hj; cases hj; right; omega)]

/-- Witness for C1 at a concrete store: a fault at index 1 of a two-item
batch leaves the store untouched and returns 0, while the fault-free run
applies both updates, persists once and returns 2. -/
theorem claimC1_batchStatusAtomic_witness :
    updateValidationStatuses twoRowSt twoItems (some 1) = (twoRowSt, 0) ∧
    updateValidationStatuses twoRowSt twoItems none =
      ({ twoRowSt with table := applyStatusItems twoRowSt.table twoItems,
                       persistCount := twoRowSt.persistCount + 1 }, 2) :=
  ⟨(claimC1_batchStatusAtomic twoRowSt twoItems rfl (by decide)).2.1 1 (by decide),
   (claimC1_batchStatusAtomic twoRowSt twoItems rfl (by decide)).1⟩

end LexDb

namespace LexDb

/-! ### C9: updateEntry touches only the supplied recognized fields -/

theorem applyEntryUpdates_id (u : EntryUpdates) (e : Entry) :
    (applyEntryUpdates u e).id = e.id := rfl

theorem applyEntryUpdates_dateAdded (u : EntryUpdates) (e : Entry) :
    (applyEntryUpdates u e).dateAdded = e.dateAdded := rfl

/-- C9: `updateEntry` modifies only the supplied recognized fields of the
addressed row; the id, sourcePage, sourceUrl, dateAdded, status and
validationIssue columns of that row and all other rows stay unchanged; it
returns failure without persisting when no recognized field is present, and
persists exactly once on success. -/
theorem claimC9_updateEntry_frame (st : DbState) (entryId : String) (u : EntryUpdates)
    (hdb : st.dbLoaded = true) :
    (u.hasField = false → updateEntry st entryId u = (st, false)) ∧
    (u.hasField = true →
      updateEntry st entryId u =
        ({ st with
            table := st.table.map (fun e => if e.id = entryId then applyEntryUpdates u e else e),
            persistCount := st.persistCount + 1 }, true)) ∧
    (∀ e : Entry,
      (applyEntryUpdates u e).id = e.id ∧
      (applyEntryUpdates u e).sourcePage = e.sourcePage ∧
      (applyEntryUpdates u e).sourceUrl = e.sourceUrl ∧
      (applyEntryUpdates u e).dateAdded = e.dateAdded ∧
      (applyEntryUpdates u e).status = e.status ∧
      (applyEntryUpdates u e).validationIssue = e.validationIssue) ∧
    (∀ e : Entry,
      (u.hebrewWord = none → (applyEntryUpdates u e).hebrewWord = e.hebrewWord) ∧
      (u.hebrewConsonantal = none →
        (applyEntryUpdates u e).hebrewConsonantal = e.hebrewConsonantal) ∧
      (u.transliteration = none → (applyEntryUpdates u e).transliteration = e.transliteration) ∧
      (u.partOfSpeech = none → (applyEntryUpdates u e).partOfSpeech = e.partOfSpeech) ∧
      (u.definition = none → (applyEntryUpdates u e).definition = e.definition) ∧
      (u.root = none → (applyEntryUpdates u e).root = e.root) ∧
      (u.isRoot = none → (applyEntryUpdates u e).isRoot = e.isRoot) ∧
      (u.strongsNumbers = none → (applyEntryUpdates u e).strongsNumbers = e.strongsNumbers)) ∧
    (∀ (e : Entry) (v : String),
      (u.hebrewWord = some v → (applyEntryUpdates u e).hebrewWord = v) ∧
      (u.hebrewConsonantal = some v → (applyEntryUpdates u e).hebrewConsonantal = v) ∧
      (u.transliteration = some v → (applyEntryUpdates u e).transliteration = v) ∧
      (u.partOfSpeech = some v → (applyEntryUpdates u e).partOfSpeech = v) ∧
      (u.definition = some v → (applyEntryUpdates u e).definition = v) ∧
      (u.root = some v → (applyEntryUpdates u e).root = v) ∧
      (u.strongsNumbers = some v → (applyEntryUpdates u e).strongsNumbers = v)) ∧
    (∀ (e : Entry) (b : Bool), u.isRoot = some b → (applyEntryUpdates u e).isRoot = b) := by
  refine ⟨fun hno => ?_, fun hyes => ?_, fun e => ?_, fun e => ?_, fun e v => ?_, fun e b hb => ?_⟩
  · rw [updateEntry, if_neg (by simp [hdb]), if_pos (by simp [hno])]
  · rw [updateEntry, if_neg (by simp [hdb]), if_neg (by simp [hyes])]
  · exact ⟨rfl, rfl, rfl, rfl, rfl, rfl⟩
  · refine ⟨fun h => ?_, fun h => ?_, fun h => ?_, fun h => ?_, fun h => ?_, fun h => ?_,
      fun h => ?_, fun h => ?_⟩ <;> simp [applyEntryUpdates, h]
  · refine ⟨fun h => ?_, fun h => ?_, fun h => ?_, fun h => ?_, fun h => ?_, fun h => ?_,
      fun h => ?_⟩ <;> simp [applyEntryUpdates, h]
  · simp [applyEntryUpdates, hb]

/-- Witness for C9 at a concrete store: updating only the root of row F1
rewrites exactly that field and persists once, and an empty update object
fails without persisting. -/
theorem claimC9_updateEntry_frame_witness :
    updateEntry twoRowSt "F1" { root := some "בא" } =
      ({ twoRowSt with
          table := twoRowSt.table.map
            (fun e => if e.id = "F1" then applyEntryUpdates { root := some "בא" } e else e),
          persistCount := twoRowSt.persistCount + 1 }, true) ∧
    updateEntry twoRowSt "F1" {} = (twoRowSt, false) :=
  ⟨(claimC9_updateEntry_frame twoRowSt "F1" { root := some "בא" } rfl).2.1 rfl,
   (claimC9_updateEntry_frame twoRowSt "F1" {} rfl).1 rfl⟩

/-! ### C10: operations against a missing database handle -/

/-- C10: every modelled store operation invoked while the internal db
handle is null returns a harmless default (empty list, none, unchanged
state, false or 0) and never changes the store or the persist counter. -/
theorem claimC10_nullDbGuards (st : DbState) (hdb : st.dbLoaded = false) :
    getAllEntries st = [] ∧
    (∀ i, getEntryById st i = none) ∧
    getRootMismatches st = [] ∧
    getPagesWithInvalid st = [] ∧
    (∀ p, getInvalidEntriesBySourcePage st p = []) ∧
    (∀ es now, addEntries st es now = st) ∧
    (∀ i u, updateEntry st i u = (st, false)) ∧
    (∀ items f, updateValidationStatuses st items f = (st, 0)) := by
  refine ⟨?_, fun i => ?_, ?_, ?_, fun p => ?_, fun es now => ?_, fun i u => ?_,
    fun items f => ?_⟩ <;>
    simp [getAllEntries, getEntryById, getRootMismatches, getPagesWithInvalid,
      getInvalidEntriesBySourcePage, addEntries, updateEntry, updateValidationStatuses, hdb]

/-- Witness for C10 at a concrete unloaded store. -/
theorem claimC10_nullDbGuards_witness :
    getAllEntries ⟨false, [sampleEntry], 7⟩ = [] ∧
    updateEntry ⟨false, [sampleEntry], 7⟩ "F1" {} = (⟨false, [sampleEntry], 7⟩, false) ∧
    updateValidationStatuses ⟨false, [sampleEntry], 7⟩ twoItems none =
      (⟨false, [sampleEntry], 7⟩, 0) :=
  ⟨(claimC10_nullDbGuards ⟨false, [sampleEntry], 7⟩ rfl).1,
   (claimC10_nullDbGuards ⟨false, [sampleEntry], 7⟩ rfl).2.2.2.2.2.2.1 "F1" {},
   (claimC10_nullDbGuards ⟨false, [sampleEntry], 7⟩ rfl).2.2.2.2.2.2.2 twoItems none⟩

end LexDb

namespace LexDb

/-! ### C4: the root-mismatch integrity query -/

/-- C4: an entry appears in `getRootMismatches` exactly when the store is
loaded, the entry is stored, its root and hebrewWord are non-empty, and some
character occurs strictly more often in the stripped root than in the
stripped hebrewWord.  In particular an entry whose stripped root letters
form a sub-multiset of the stripped word letters is never flagged. -/
theorem claimC4_rootMismatch_iff (st : DbState) (e : Entry) :
    e ∈ getRootMismatches st ↔
      (st.dbLoaded = true ∧ e ∈ st.table ∧ e.root ≠ "" ∧ e.hebrewWord ≠ "" ∧
        ∃ c : Char,
          (strippedConsonants e.hebrewWord).count c < (strippedConsonants e.root).count c) := by
  by_cases hdb : st.dbLoaded
  · rw [getRootMismatches, if_neg (by simp [hdb])]
    simp only [List.mem_filter, hdb, true_and, Bool.not_eq_true', beq_eq_false_iff_ne,
      and_assoc, and_congr_right_iff]
    intro hmem hroot
    by_cases hw : e.hebrewWord = ""
    · rw [hasRootMismatch, if_pos (by simp [hw])]
      simp [hw]
    · rw [hasRootMismatch, if_neg (by simp [hroot, hw])]
      simp only [hw, Ne, not_false_iff, true_and]
      constructor
      · intro hc
        rcases List.any_eq_true.mp hc with ⟨c, _, hlt⟩
        exact ⟨c, by simpa using hlt⟩
      · rintro ⟨c, hlt⟩
        exact List.any_eq_true.mpr
          ⟨c, List.count_pos_iff.mp (by omega), by simpa using hlt⟩
  · rw [getRootMismatches, if_pos (by simp [hdb])]
    simp [hdb]

end LexDb

namespace LexDb

/-! ### C6: dateAdded under addEntries and the other mutations -/

/-- C6 counterexample: the store holds row F1 with `dateAdded = 100`;
re-running `addEntries` on the same id at time 200 replaces the row via
`INSERT OR REPLACE`, which binds `dateAdded` to `Date.now()` of the second
call, so the original insertion timestamp is not preserved. -/
theorem claimC6_counterexample :
    ((DbState.mk true [sampleEntry] 0).table.map (fun e => e.dateAdded) = [100]) ∧
    ((addEntries (DbState.mk true [sampleEntry] 0)
        [{ sampleEntry with definition := "father, ancestor" }] 200).table.map
      (fun e => e.dateAdded) = [200]) := by decide

theorem applyStatusItem_dateAdded (it : StatusItem) (e : Entry) :
    (applyStatusItem it e).dateAdded = e.dateAdded := by
  rw [applyStatusItem]; split <;> rfl

/-- The statement loop of `updateValidationStatuses` never changes any
dateAdded column. -/
theorem runStatusUpdates_dateAdded (failAt : Option Nat) (items : List StatusItem)
    (i : Nat) (t t' : List Entry) (h : runStatusUpdates failAt items i t = some t') :
    t'.map (fun e => e.dateAdded) = t.map (fun e => e.dateAdded) := by
  induction items generalizing i t with
  | nil =>
    rw [runStatusUpdates] at h
    cases h
    rfl
  | cons it rest ih =>
    rw [runStatusUpdates] at h
    by_cases hEq : failAt = some i
    · rw [if_pos hEq] at h; cases h
    · rw [if_neg hEq] at h
      rw [ih (i + 1) _ h, List.map_map]
      exact List.map_congr_left (fun e _ => applyStatusItem_dateAdded it e)

/-- Every row produced by the insert fold is either an original row or a
freshly built row of the batch. -/
theorem addFold_mem (es : List Entry) (now : Nat) (t : List Entry) :
    ∀ e ∈ es.foldl (fun acc x => insertOrReplaceRow acc (entryRow x now)) t,
      e ∈ t ∨ ∃ x ∈ es, e = entryRow x now := by
  induction es generalizing t with
  | nil => intro e he; exact Or.inl he
  | cons x rest ih =>
    intro e he
    simp only [List.foldl_cons] at he
    rcases ih _ e he with h | ⟨y, hy, rfl⟩
    · rw [insertOrReplaceRow] at h
      rcases List.mem_append.mp h with h | h
      · exact Or.inl (List.mem_of_mem_filter h)
      · right
        refine ⟨x, List.mem_cons_self x rest, ?_⟩
        simpa using h
    · exact Or.inr ⟨y, List.mem_cons_of_mem x hy, rfl⟩

/-- Every row of the fold result whose id occurs in the batch carries the
timestamp of this call. -/
theorem addFold_dateAdded (es : List Entry) (now : Nat) (t : List Entry) :
    ∀ e ∈ es.foldl (fun acc x => insertOrReplaceRow acc (entryRow x now)) t,
      (∃ x ∈ es, x.id = e.id) → e.dateAdded = now := by
  induction es generalizing t with
  | nil =>
    rintro e he ⟨x, hx, _⟩
    cases hx
  | cons x rest ih =>
    rintro e he ⟨x', hx', hid⟩
    rcases List.mem_cons.mp hx' with rfl | hx'
    · simp only [List.foldl_cons] at he
      rcases addFold_mem rest now _ e he with h | ⟨y, _, rfl⟩
      · rw [insertOrReplaceRow] at h
        rcases List.mem_append.mp h with h | h
        · exfalso
          have hkeep := List.of_mem_filter h
          simp only [Bool.not_eq_true', beq_eq_false_iff_ne] at hkeep
          exact hkeep (by simpa [entryRow] using hid.symm)
        · have he' : e = entryRow x' now := by simpa using h
          rw [he']
          rfl
      · rfl
    · exact ih _ e (by simpa using he) ⟨x', hx', hid⟩

/-- Rows whose id does not occur in the batch survive the fold unchanged. -/
theorem addFold_frame (es : List Entry) (now : Nat) (t : List Entry) :
    ∀ e ∈ t, (∀ x ∈ es, x.id ≠ e.id) →
      e ∈ es.foldl (fun acc x => insertOrReplaceRow acc (entryRow x now)) t := by
  induction es generalizing t with
  | nil => intro e he _; exact he
  | cons x rest ih =>
    intro e he hids
    simp only [List.foldl_cons]
    refine ih _ e ?_ (fun y hy => hids y (List.mem_cons_of_mem x hy))
    rw [insertOrReplaceRow]
    refine List.mem_append.mpr (Or.inl (List.mem_filter.mpr ⟨he, ?_⟩))
    have := hids x (List.mem_cons_self x rest)
    simp only [Bool.not_eq_true', beq_eq_false_iff_ne]
    intro hEq
    exact this (by simpa [entryRow] using hEq.symm)

/-- C6 amended: `dateAdded` is assigned by every insert-or-replace, so
re-running `addEntries` on an already stored id sets that row's
`dateAdded` to the time of the latest call rather than preserving the
original; rows whose ids are not in the batch are untouched, and the
non-insert mutations (`updateEntry`, `updateValidationStatuses`,
`updateValidationStatus`) never alter any row's `dateAdded`. -/
theorem claimC6_amended (st : DbState) (es : List Entry) (now : Nat)
    (hdb : st.dbLoaded = true) :
    (∀ e ∈ (addEntries st es now).table, (∃ x ∈ es, x.id = e.id) → e.dateAdded = now) ∧
    (∀ e ∈ (addEntries st es now).table,
      e ∈ st.table ∨ ∃ x ∈ es, e = entryRow x now) ∧
    (∀ e ∈ st.table, (∀ x ∈ es, x.id ≠ e.id) → e ∈ (addEntries st es now).table) ∧
    (∀ entryId u, ((updateEntry st entryId u).1.table).map (fun e => e.dateAdded) =
      st.table.map (fun e => e.dateAdded)) ∧
    (∀ items f, (((updateValidationStatuses st items f).1).table).map (fun e => e.dateAdded) =
      st.table.map (fun e => e.dateAdded)) ∧
    (∀ entryId status issue,
      ((updateValidationStatus st entryId status issue).table).map (fun e => e.dateAdded) =
        st.table.map (fun e => e.dateAdded)) := by
  have haddTable : (addEntries st es now).table =
      es.foldl (fun acc x => insertOrReplaceRow acc (entryRow x now)) st.table := by
    rw [addEntries, if_neg (by simp [hdb])]
  refine ⟨?_, ?_, ?_, ?_, ?_, ?_⟩
  · rw [haddTable]; exact addFold_dateAdded es now st.table
  · rw [haddTable]; exact addFold_mem es now st.table
  · rw [haddTable]; exact addFold_frame es now st.table
  · intro entryId u
    rw [updateEntry, if_neg (by simp [hdb])]
    by_cases hf : u.hasField
    · rw [if_neg (by simp [hf])]
      simp only [List.map_map]
      refine List.map_congr_left (fun e _ => ?_)
      by_cases hid : e.id = entryId <;> simp [hid, applyEntryUpdates_dateAdded, Function.comp]
    · rw [if_pos (by simp [hf])]
  · intro items f
    rw [updateValidationStatuses]
    by_cases hg : ¬ st.dbLoaded ∨ items.isEmpty
    · rw [if_pos hg]
    · rw [if_neg hg]
      rcases hres : runStatusUpdates f items 0 st.table with _ | t'
      · rfl
      · exact runStatusUpdates_dateAdded f items 0 st.table t' hres
  · intro entryId status issue
    rw [updateValidationStatus, if_neg (by simp [hdb])]
    simp only [List.map_map]
    exact List.map_congr_left
      (fun e _ => applyStatusItem_dateAdded ⟨entryId, status, issue⟩ e)

/-- Witness for the amended C6 at a concrete store and batch. -/
theorem claimC6_amended_witness :
    (∀ e ∈ (addEntries (DbState.mk true [sampleEntry] 0)
        [{ sampleEntry with definition := "father, ancestor" }] 200).table,
      (∃ x ∈ [{ sampleEntry with definition := "father, ancestor" }], x.id = e.id) →
        e.dateAdded = 200) ∧
    (∀ entryId u,
      (((updateEntry (DbState.mk true [sampleEntry] 0) entryId u).1.table).map
        (fun e => e.dateAdded)) =
        ((DbState.mk true [sampleEntry] 0).table.map (fun e => e.dateAdded))) :=
  ⟨(claimC6_amended (DbState.mk true [sampleEntry] 0)
      [{ sampleEntry with definition := "father, ancestor" }] 200 rfl).1,
   (claimC6_amended (DbState.mk true [sampleEntry] 0)
      [{ sampleEntry with definition := "father, ancestor" }] 200 rfl).2.2.2.1⟩

end LexDb

namespace LexDb

/-! ### C8: the schema migrator

`DatabaseService.init` (db.ts lines 575-582) runs `ensureIsRootColumn`,
`ensureStrongsColumn` and `ensureValidationColumns` on every load and calls
`save()` once when any of them reports an added column.  `ensureColumn`
(db.ts lines 624-632) inspects `PRAGMA table_info(entries)`; an empty
result (no `entries` table) yields `false`, a present column yields `false`,
otherwise `ALTER TABLE entries ADD COLUMN` appends the column.  At this
schema level a store is a column list plus rows of column/value bindings
(`none` is SQL NULL); `ALTER TABLE ... ADD COLUMN` appends the declared
default to every existing row and touches nothing else. -/

structure RawStore where
  cols : List String
  rows : List (List (String × Option String))
deriving DecidableEq

/-- `ensureColumn(columnName, columnDef)` (db.ts lines 624-632). -/
def ensureColumn (s : RawStore) (name : String) (defVal : Option String) : RawStore × Bool :=
  if s.cols.isEmpty then (s, false)
  else if name ∈ s.cols then (s, false)
  else ({ cols := s.cols ++ [name], rows := s.rows.map (fun r => r ++ [(name, defVal)]) }, true)

/-- The migration block of `init` (db.ts lines 575-582): `isRoot`,
`strongsNumbers`, `status`, `validationIssue` with their declared
defaults, and the disjunction that decides the extra persist. -/
def migrateColumns (s : RawStore) : RawStore × Bool :=
  let r1 := ensureColumn s "isRoot" (some "0")
  let r2 := ensureColumn r1.1 "strongsNumbers" (some "")
  let r3 := ensureColumn r2.1 "status" (some "unchecked")
  let r4 := ensureColumn r3.1 "validationIssue" none
  (r4.1, r1.2 || r2.2 || (r3.2 || r4.2))

/-- The migration followed by the conditional `save()` of init. -/
def migrateAndPersist (s : RawStore) (persistCount : Nat) : RawStore × Nat :=
  let r := migrateColumns s
  (r.1, if r.2 then persistCount + 1 else persistCount)

/-- The four columns the migrator requires, with their row defaults. -/
def requiredColumnDefs : List (String × Option String) :=
  [("isRoot", some "0"), ("strongsNumbers", some ""),
   ("status", some "unchecked"), ("validationIssue", none)]

/-- The required columns absent from a given column list. -/
def missingColumnDefs (cols : List String) : List (String × Option String) :=
  requiredColumnDefs.filter (fun p => !(cols.contains p.1))

theorem migrateColumns_eq (s : RawStore) (hne : s.cols ≠ []) :
    migrateColumns s =
      ({ cols := s.cols ++ (missingColumnDefs s.cols).map Prod.fst,
         rows := s.rows.map (fun r => r ++ missingColumnDefs s.cols) },
       !(missingColumnDefs s.cols).isEmpty) := by
  by_cases h1 : "isRoot" ∈ s.cols <;>
    by_cases h2 : "strongsNumbers" ∈ s.cols <;>
      by_cases h3 : "status" ∈ s.cols <;>
        by_cases h4 : "validationIssue" ∈ s.cols <;>
          simp_all [migrateColumns, ensureColumn, missingColumnDefs, requiredColumnDefs,
            List.isEmpty_iff, List.mem_append]

/-- C8: on every load the migration is a no-op when all required columns
already exist, it triggers exactly one additional persist precisely when at
least one column was missing, and existing row data is never destroyed:
every stored row reappears unchanged, merely extended by the defaults of
the freshly added columns. -/
theorem claimC8_migration (s : RawStore) (pc : Nat) (hne : s.cols ≠ []) :
    ((∀ p ∈ requiredColumnDefs, p.1 ∈ s.cols) → migrateAndPersist s pc = (s, pc)) ∧
    ((¬ ∀ p ∈ requiredColumnDefs, p.1 ∈ s.cols) → (migrateAndPersist s pc).2 = pc + 1) ∧
    ((migrateAndPersist s pc).1.rows = s.rows.map (fun r => r ++ missingColumnDefs s.cols)) ∧
    ((migrateAndPersist s pc).1.cols = s.cols ++ (missingColumnDefs s.cols).map Prod.fst) := by
  have hmiss : (∀ p ∈ requiredColumnDefs, p.1 ∈ s.cols) ↔ missingColumnDefs s.cols = [] := by
    rw [missingColumnDefs, List.filter_eq_nil_iff]
    constructor
    · intro h p hp
      simp [h p hp]
    · intro h p hp
      have hp' := h p hp
      simpa using hp'
  refine ⟨fun hall => ?_, fun hsome => ?_, ?_, ?_⟩
  · have hm := hmiss.mp hall
    rw [migrateAndPersist, migrateColumns_eq s hne, hm]
    simp
  · have hm : missingColumnDefs s.cols ≠ [] := fun hEq => hsome (hmiss.mpr hEq)
    rw [migrateAndPersist, migrateColumns_eq s hne]
    simp [List.isEmpty_iff, hm]
  · rw [migrateAndPersist, migrateColumns_eq s hne]
  · rw [migrateAndPersist, migrateColumns_eq s hne]

/-- Witness for C8: a legacy store lacking all four required columns gains
exactly the missing columns, persists once, and keeps its row data; a fully
migrated store is left alone without persisting. -/
theorem claimC8_migration_witness :
    (migrateAndPersist ⟨["id", "hebrewWord"], [[("id", some "F1"), ("hebrewWord", some "אב")]]⟩ 3).2
        = 4 ∧
    (migrateAndPersist
        ⟨["id", "isRoot", "strongsNumbers", "status", "validationIssue"], []⟩ 3 =
      (⟨["id", "isRoot", "strongsNumbers", "status", "validationIssue"], []⟩, 3)) ∧
    (migrateAndPersist ⟨["id", "hebrewWord"], [[("id", some "F1"), ("hebrewWord", some "אב")]]⟩ 3).1.rows
        = [[("id", some "F1"), ("hebrewWord", some "אב")] ++
            missingColumnDefs ["id", "hebrewWord"]] :=
  ⟨(claimC8_migration ⟨["id", "hebrewWord"], [[("id", some "F1"), ("hebrewWord", some "אב")]]⟩ 3
      (by decide)).2.1 (by decide),
   (claimC8_migration ⟨["id", "isRoot", "strongsNumbers", "status", "validationIssue"], []⟩ 3
      (by decide)).1 (by decide),
   (claimC8_migration ⟨["id", "hebrewWord"], [[("id", some "F1"), ("hebrewWord", some "אב")]]⟩ 3
      (by decide)).2.2.1⟩

end LexDb

namespace LexDb

/-! ### C2: bootstrap format validation and source priority -/

/-- The sixteen bytes of the constant SQLITE_HEADER (db.ts line 337):
the ASCII codes of `SQLite format 3` followed by a NUL byte. -/
def sqliteHeaderBytes : List Nat :=
  [0x53, 0x51, 0x4C, 0x69, 0x74, 0x65, 0x20, 0x66,
   0x6F, 0x72, 0x6D, 0x61, 0x74, 0x20, 0x33, 0x00]

/-- `isSqliteFile(buffer)` (db.ts lines 344-350): false on a missing
buffer or fewer than 16 bytes, otherwise the first 16 bytes must equal the
magic header.  The TextDecoder with the `ascii` (windows-1252) label is
injective on bytes, so the string comparison is exactly byte equality. -/
def isSqliteFile : Option (List Nat) → Bool
  | none => false
  | some bytes => decide (16 ≤ bytes.length) && (bytes.take 16 == sqliteHeaderBytes)

/-- The terminal source labels a bootstrap can finish with (the transient
`invalid-cache` label of db.ts line 506 is always overwritten by the
prebuilt or fresh branch before `init` returns). -/
inductive LoadSource
  | server
  | indexedDB
  | prebuiltFile
  | fresh
deriving DecidableEq

/-- The environment `DatabaseService.init` (db.ts lines 466-592) probes:
`serverReachable` is the `/status` liveness result, `serverFetch` the body
of `GET /lexicon.sqlite` (`none` models a failed or non-2xx fetch),
`cache` the IndexedDB blob, `prebuilt1`/`prebuilt2` the fetch results for
`/lexicon.sqlite` and `/prebuilt/lexicon.sqlite`, and `forceFresh` the
reset flag. -/
structure BootEnv where
  serverReachable : Bool
  serverFetch : Option (List Nat)
  cache : Option (List Nat)
  prebuilt1 : Option (List Nat)
  prebuilt2 : Option (List Nat)
  forceFresh : Bool
deriving DecidableEq

/-- What bootstrap decided: the winning source, the bytes the active store
was built from (`none` when a fresh empty store was constructed), and
whether an invalid cache entry was removed by `localforage.removeItem`
(db.ts line 507). -/
structure BootResult where
  source : LoadSource
  dbBytes : Option (List Nat)
  cacheCleared : Bool
deriving DecidableEq

/-- The candidate-selection core of `DatabaseService.init` (db.ts lines
466-592).  Step order: server snapshot (accepted only when reachable, not
force-fresh and header-valid, lines 485-494), then the IndexedDB cache
(lines 497-510, deleting a structurally invalid entry), then the prebuilt
paths in fixed order (lines 513-536), then a fresh store (lines 539-569). -/
def initBoot (env : BootEnv) : BootResult :=
  if env.serverReachable && !env.forceFresh && isSqliteFile env.serverFetch then
    { source := .server, dbBytes := env.serverFetch, cacheCleared := false }
  else if !env.forceFresh && isSqliteFile env.cache then
    { source := .indexedDB, dbBytes := env.cache, cacheCleared := false }
  else if !env.forceFresh && isSqliteFile env.prebuilt1 then
    { source := .prebuiltFile, dbBytes := env.prebuilt1,
      cacheCleared := !env.forceFresh && env.cache.isSome && !(isSqliteFile env.cache) }
  else if !env.forceFresh && isSqliteFile env.prebuilt2 then
    { source := .prebuiltFile, dbBytes := env.prebuilt2,
      cacheCleared := !env.forceFresh && env.cache.isSome && !(isSqliteFile env.cache) }
  else
    { source := .fresh, dbBytes := none,
      cacheCleared := !env.forceFresh && env.cache.isSome && !(isSqliteFile env.cache) }

/-- C2: during a normal (not force-fresh) bootstrap a candidate byte
source is accepted only when its first bytes equal the SQLite magic
header, so corrupt bytes are never loaded; candidates fall through in the
fixed priority order server snapshot, local cache, prebuilt paths, fresh
store; and a structurally invalid cache entry is deleted whenever the
cache is reached. -/
theorem claimC2_bootstrapFallback (env : BootEnv) (hff : env.forceFresh = false) :
    (∀ b, (initBoot env).dbBytes = some b → isSqliteFile (some b) = true) ∧
    ((initBoot env).dbBytes = none ↔ (initBoot env).source = .fresh) ∧
    ((initBoot env).source =
      (if env.serverReachable && isSqliteFile env.serverFetch then .server
       else if isSqliteFile env.cache then .indexedDB
       else if isSqliteFile env.prebuilt1 then .prebuiltFile
       else if isSqliteFile env.prebuilt2 then .prebuiltFile
       else .fresh)) ∧
    ((initBoot env).cacheCleared =
      (!(env.serverReachable && isSqliteFile env.serverFetch) &&
        (env.cache.isSome && !(isSqliteFile env.cache)))) := by
  by_cases hs : (env.serverReachable && isSqliteFile env.serverFetch) = true
  · have hs' : (env.serverReachable && !env.forceFresh && isSqliteFile env.serverFetch) = true := by
      rw [hff]; simpa using hs
    have hres : initBoot env =
        { source := .server, dbBytes := env.serverFetch, cacheCleared := false } := by
      rw [initBoot, if_pos hs']
    have hv : isSqliteFile env.serverFetch = true := by
      have h2 : env.serverReachable = true ∧ isSqliteFile env.serverFetch = true := by
        simpa using hs
      exact h2.2
    have hsome : env.serverFetch ≠ none := by
      intro hEq; rw [hEq] at hv; exact Bool.noConfusion hv
    rw [hres]
    refine ⟨fun b hb => ?_, ?_, ?_, ?_⟩
    · rw [show some b = env.serverFetch from hb.symm]; exact hv
    · exact ⟨fun h0 => absurd h0 hsome, fun h0 => LoadSource.noConfusion h0⟩
    · rw [if_pos hs]
    · simp [hs]
  · have hs' : ¬ (env.serverReachable && !env.forceFresh && isSqliteFile env.serverFetch) = true := by
      rw [hff]; simpa using hs
    have hsf : (env.serverReachable && isSqliteFile env.serverFetch) = false := by
      simpa using hs
    by_cases hc : isSqliteFile env.cache = true
    · have hc' : (!env.forceFresh && isSqliteFile env.cache) = true := by
        rw [hff]; simpa using hc
      have hres : initBoot env =
          { source := .indexedDB, dbBytes := env.cache, cacheCleared := false } := by
        rw [initBoot, if_neg hs', if_pos hc']
      have hsome : env.cache ≠ none := by
        intro hEq; rw [hEq] at hc; exact Bool.noConfusion hc
      rw [hres]
      refine ⟨fun b hb => ?_, ?_, ?_, ?_⟩
      · rw [show some b = env.cache from hb.symm]; exact hc
      · exact ⟨fun h0 => absurd h0 hsome, fun h0 => LoadSource.noConfusion h0⟩
      · rw [if_neg (by simp [hsf]), if_pos hc]
      · simp [hc]
    · have hcf : isSqliteFile env.cache = false := by simpa using hc
      have hc' : ¬ (!env.forceFresh && isSqliteFile env.cache) = true := by
        rw [hff]; simpa using hc
      by_cases hp1 : isSqliteFile env.prebuilt1 = true
      · have hp1' : (!env.forceFresh && isSqliteFile env.prebuilt1) = true := by
          rw [hff]; simpa using hp1
        have hres : initBoot env =
            { source := .prebuiltFile, dbBytes := env.prebuilt1,
              cacheCleared := !env.forceFresh && env.cache.isSome && !(isSqliteFile env.cache) } := by
          rw [initBoot, if_neg hs', if_neg hc', if_pos hp1']
        have hsome : env.prebuilt1 ≠ none := by
          intro hEq; rw [hEq] at hp1; exact Bool.noConfusion hp1
        rw [hres]
        refine ⟨fun b hb => ?_, ?_, ?_, ?_⟩
        · rw [show some b = env.prebuilt1 from hb.symm]; exact hp1
        · exact ⟨fun h0 => absurd h0 hsome, fun h0 => LoadSource.noConfusion h0⟩
        · rw [if_neg (by simp [hsf]), if_neg (by simp [hcf]), if_pos hp1]
        · simp [hsf, hff]
      · have hp1' : ¬ (!env.forceFresh && isSqliteFile env.prebuilt1) = true := by
          rw [hff]; simpa using hp1
        by_cases hp2 : isSqliteFile env.prebuilt2 = true
        · have hp2' : (!env.forceFresh && isSqliteFile env.prebuilt2) = true := by
            rw [hff]; simpa using hp2
          have hres : initBoot env =
              { source := .prebuiltFile, dbBytes := env.prebuilt2,
                cacheCleared := !env.forceFresh && env.cache.isSome && !(isSqliteFile env.cache) } := by
            rw [initBoot, if_neg hs', if_neg hc', if_neg hp1', if_pos hp2']
          have hsome : env.prebuilt2 ≠ none := by
            intro hEq; rw [hEq] at hp2; exact Bool.noConfusion hp2
          rw [hres]
          refine ⟨fun b hb => ?_, ?_, ?_, ?_⟩
          · rw [show some b = env.prebuilt2 from hb.symm]; exact hp2
          · exact ⟨fun h0 => absurd h0 hsome, fun h0 => LoadSource.noConfusion h0⟩
          · rw [if_neg (by simp [hsf]), if_neg (by simp [hcf]),
              if_neg (by simp [hp1]), if_pos hp2]
          · simp [hsf, hff]
        · have hp2' : ¬ (!env.forceFresh && isSqliteFile env.prebuilt2) = true := by
            rw [hff]; simpa using hp2
          have hres : initBoot env =
              { source := .fresh, dbBytes := none,
                cacheCleared := !env.forceFresh && env.cache.isSome && !(isSqliteFile env.cache) } := by
            rw [initBoot, if_neg hs', if_neg hc', if_neg hp1', if_neg hp2']
          rw [hres]
          refine ⟨?_, ?_, ?_, ?_⟩
          · intro b hb; cases hb
          · exact Iff.intro (fun _ => rfl) (fun _ => rfl)
          · rw [if_neg (by simp [hsf]), if_neg (by simp [hcf]),
              if_neg (by simp [hp1]), if_neg (by simp [hp2])]
          · simp [hsf, hff]

/-- Witness for C2: a reachable server returning a corrupt snapshot is
rejected, bootstrap falls through to a corrupt cache, deletes it, rejects
a missing first prebuilt path, and accepts the valid second prebuilt
snapshot. -/
theorem claimC2_bootstrapFallback_witness :
    (initBoot
        { serverReachable := true, serverFetch := some [1, 2, 3],
          cache := some [0, 0], prebuilt1 := none,
          prebuilt2 := some (sqliteHeaderBytes ++ [7]), forceFresh := false }).source
      = LoadSource.prebuiltFile ∧
    (initBoot
        { serverReachable := true, serverFetch := some [1, 2, 3],
          cache := some [0, 0], prebuilt1 := none,
          prebuilt2 := some (sqliteHeaderBytes ++ [7]), forceFresh := false }).cacheCleared
      = true := by
  have h := claimC2_bootstrapFallback
    { serverReachable := true, serverFetch := some [1, 2, 3],
      cache := some [0, 0], prebuilt1 := none,
      prebuilt2 := some (sqliteHeaderBytes ++ [7]), forceFresh := false } rfl
  exact ⟨by rw [h.2.2.1]; decide, by rw [h.2.2.2]; decide⟩

end LexDb

namespace LexDb

/-! ### C5: Roman-numeral relocation

`moveRomanNumeralsToDefinition` (db.ts lines 1000-1051) matches
`/\s+((?:X{0,3})(?:IX|IV|V?I{0,3}))\.?$/` against each `hebrewWord`.  The
model below reproduces the JavaScript regex semantics: the engine tries
start positions left to right (the leftmost successful start wins, which is
the longest matching tail); at a fixed start the `\s+` run is maximal
(nothing after it can consume a whitespace character, so backtracking the
run can never help); the capture group consumes the maximal run of up to
three X characters (no alternative of the second group starts with X)
followed by one of the ten unit alternatives; the optional period and the
anchor force the group plus at most one trailing period to consume the
whole remainder. -/

/-- The ten strings matched by `(?:IX|IV|V?I{0,3})`. -/
def romanUnits : List (List Char) :=
  [[], ['I'], ['I', 'I'], ['I', 'I', 'I'], ['I', 'V'], ['V'],
   ['V', 'I'], ['V', 'I', 'I'], ['V', 'I', 'I', 'I'], ['I', 'X']]

/-- Language of the capture group `((?:X{0,3})(?:IX|IV|V?I{0,3}))`. -/
def romanGroupOk (cs : List Char) : Bool :=
  decide ((cs.takeWhile (fun c => c == 'X')).length ≤ 3) &&
    romanUnits.contains (cs.dropWhile (fun c => c == 'X'))

/-- Attempt of the anchored pattern at one start position: a non-empty
whitespace run, then the captured group, then at most one period, then the
end of the word.  Returns the captured numeral. -/
def wsRomanTail (cs : List Char) : Option (List Char) :=
  let ws := cs.takeWhile isJsWhitespace
  let rest := cs.dropWhile isJsWhitespace
  if ws.isEmpty then none
  else
    let core := if rest.getLast? = some '.' then rest.dropLast else rest
    if romanGroupOk core then some core else none

/-- Leftmost match of the pattern: scan the start positions left to right;
on success return the prefix before the match together with the captured
numeral (the regex match itself is the whole remaining tail, which
`String.replace(pattern, '')` removes). -/
def findRomanMatch : List Char → Option (List Char × List Char)
  | [] => none
  | c :: rest =>
    match wsRomanTail (c :: rest) with
    | some core => some ([], core)
    | none =>
      match findRomanMatch rest with
      | some (head, core) => some (c :: head, core)
      | none => none

/-- The duplication guard `/^[IVX]+\.\s/` of db.ts line 1030: one or more
numeral letters (the run is maximal, since a shorter run would leave a
numeral letter where the period must stand), then a period, then one
whitespace character. -/
def defStartsWithNumeral (s : String) : Bool :=
  let pre := s.data.takeWhile (fun c => c == 'I' || c == 'V' || c == 'X')
  let rest := s.data.dropWhile (fun c => c == 'I' || c == 'V' || c == 'X')
  !(pre.isEmpty) &&
    (match rest with
     | d :: w :: _ => d == '.' && isJsWhitespace w
     | _ => false)

/-- One row transform of the loop at db.ts lines 1024-1037: a matching word
is replaced by the trimmed prefix before the match, and the captured
numeral plus a period is prepended to the definition unless the definition
already passes the guard. -/
def moveRomanStep (e : Entry) : Entry :=
  match findRomanMatch e.hebrewWord.data with
  | none => e
  | some (head, core) =>
    { e with
      hebrewWord := String.mk (trimChars head),
      definition :=
        if defStartsWithNumeral e.definition then e.definition
        else String.mk core ++ ". " ++ e.definition }

/-- `moveRomanNumeralsToDefinition()` (db.ts lines 1000-1051): null-db
guard, empty-SELECT short circuit before the transaction, otherwise every
matching row is updated by id inside one transaction and the store is
saved once.  Ids are unique (PRIMARY KEY), so the per-id updates act
pointwise on the table; the second component counts total and updated
rows. -/
def moveRomanNumeralsToDefinition (st : DbState) : DbState × (Nat × Nat) :=
  if ¬ st.dbLoaded then (st, (0, 0))
  else if st.table.isEmpty then (st, (0, 0))
  else
    ({ st with table := st.table.map moveRomanStep, persistCount := st.persistCount + 1 },
     (st.table.length,
      (st.table.filter (fun e => (findRomanMatch e.hebrewWord.data).isSome)).length))

end LexDb

namespace LexDb

/-- A word carrying two stacked numeral tails. -/
def stackedNumeralEntry : Entry :=
  { sampleEntry with hebrewWord := "א I II", definition := "d" }

/-- C5 counterexample: on the store holding the single word `א I II` with
definition `d`, the first run moves only the last numeral (the word becomes
`א I`, the definition `II. d`), and the second run strips the remaining
numeral tail from the word, so running the operation twice does not produce
the same entries table as running it once. -/
theorem claimC5_counterexample :
    ((moveRomanNumeralsToDefinition
        (DbState.mk true [stackedNumeralEntry] 0)).1.table.map (fun e => e.hebrewWord)
      = ["א I"]) ∧
    ((moveRomanNumeralsToDefinition
        (moveRomanNumeralsToDefinition
          (DbState.mk true [stackedNumeralEntry] 0)).1).1.table.map (fun e => e.hebrewWord)
      = ["א"]) ∧
    (moveRomanNumeralsToDefinition
        (moveRomanNumeralsToDefinition
          (DbState.mk true [stackedNumeralEntry] 0)).1).1.table ≠
      (moveRomanNumeralsToDefinition (DbState.mk true [stackedNumeralEntry] 0)).1.table := by
  decide

theorem moveRomanStep_of_none (e : Entry)
    (h : findRomanMatch ((moveRomanStep e).hebrewWord).data = none) :
    moveRomanStep (moveRomanStep e) = moveRomanStep e := by
  rw [moveRomanStep, h]

/-- C5 amended: the relocation is idempotent on the entries table for every
store in which no entry's word still matches the trailing-numeral pattern
after one pass (in particular whenever each word carries at most one
trailing numeral segment); the numeral-dot guard then prevents any
duplicated prefix on the definition. -/
theorem claimC5_amended (st : DbState)
    (h : ∀ e ∈ st.table, findRomanMatch ((moveRomanStep e).hebrewWord).data = none) :
    (moveRomanNumeralsToDefinition (moveRomanNumeralsToDefinition st).1).1.table =
      (moveRomanNumeralsToDefinition st).1.table := by
  by_cases hdb : st.dbLoaded = true
  · by_cases hemp : st.table.isEmpty
    · have hres : moveRomanNumeralsToDefinition st = (st, (0, 0)) := by
        rw [moveRomanNumeralsToDefinition, if_neg (by simp [hdb]), if_pos hemp]
      rw [hres, hres]
    · have hres : (moveRomanNumeralsToDefinition st).1 =
          { st with table := st.table.map moveRomanStep,
                    persistCount := st.persistCount + 1 } := by
        rw [moveRomanNumeralsToDefinition, if_neg (by simp [hdb]), if_neg hemp]
      rw [hres]
      have hemp2 : ¬ (st.table.map moveRomanStep).isEmpty := by
        simpa [List.isEmpty_iff] using hemp
      rw [moveRomanNumeralsToDefinition]
      rw [if_neg (by simp [hdb]), if_neg hemp2]
      simp only [List.map_map]
      exact List.map_congr_left (fun e he => moveRomanStep_of_none e (h e he))
  · have hres : moveRomanNumeralsToDefinition st = (st, (0, 0)) := by
      rw [moveRomanNumeralsToDefinition, if_pos (by simp [hdb])]
    rw [hres, hres]

/-- Witness for the amended C5: a store whose single word carries one
trailing numeral segment satisfies the hypothesis, and two runs agree. -/
theorem claimC5_amended_witness :
    (moveRomanNumeralsToDefinition
        (moveRomanNumeralsToDefinition
          (DbState.mk true [{ sampleEntry with hebrewWord := "חפה I.", definition := "cover" }]
            0)).1).1.table =
      (moveRomanNumeralsToDefinition
        (DbState.mk true [{ sampleEntry with hebrewWord := "חפה I.", definition := "cover" }]
          0)).1.table :=
  claimC5_amended
    (DbState.mk true [{ sampleEntry with hebrewWord := "חפה I.", definition := "cover" }] 0)
    (by decide)

end LexDb

namespace LexDb

/-! ### C3: two-phase id rebuild

`rebuildLexiconIds` (db.ts lines 917-993) sorts all entries with a
JavaScript comparator, renames every row to `__TEMP_<i>__` and then to
`<prefix><padded index>`, all inside one transaction with a single save.
The comparator composed from `localeCompare` is modelled as an opaque
boolean relation handed to a sorting routine; every property claimed is
invariant under the produced permutation.  The two UPDATE statements run
against the `id` PRIMARY KEY column, so a statement that would leave two
rows with the same id throws, the catch branch rolls the transaction back
and 0 is returned. -/

/-- Decimal value of a digit character. -/
def digitVal (c : Char) : Nat := c.toNat - '0'.toNat

theorem digitVal_digitChar : ∀ n, n < 10 → digitVal (Nat.digitChar n) = n := by decide

/-- The decimal digit characters of a number, most significant first. -/
def decDigits (n : Nat) : List Char :=
  if h : n < 10 then [Nat.digitChar n]
  else decDigits (n / 10) ++ [Nat.digitChar (n % 10)]
termination_by n
decreasing_by
  exact Nat.div_lt_self (by omega) (by omega)

/-- The fuelled core of `Nat.repr` computes exactly the decimal digits as
long as the fuel exceeds the number. -/
theorem toDigitsCore_eq_decDigits (fuel : Nat) :
    ∀ (n : Nat) (ds : List Char), n < fuel →
      Nat.toDigitsCore 10 fuel n ds = decDigits n ++ ds := by
  induction fuel with
  | zero => intro n ds h; omega
  | succ fuel ih =>
    intro n ds h
    rw [Nat.toDigitsCore]
    by_cases h10 : n / 10 = 0
    · have hn : n < 10 := by omega
      rw [if_pos h10, decDigits, dif_pos hn, Nat.mod_eq_of_lt hn]
      rfl
    · have hn : ¬ n < 10 := by
        intro hlt
        exact h10 (Nat.div_eq_of_lt hlt)
      have hdiv : n / 10 < n := Nat.div_lt_self (by omega) (by omega)
      rw [if_neg h10, ih (n / 10) _ (by omega)]
      conv_rhs => rw [decDigits]
      rw [dif_neg hn, List.append_assoc]
      rfl

theorem repr_eq_decDigits (n : Nat) : Nat.repr n = (decDigits n).asString := by
  rw [Nat.repr, Nat.toDigits, toDigitsCore_eq_decDigits (n + 1) n [] (by omega),
    List.append_nil]

/-- Reading the digit characters back, most significant first. -/
def parseDigits (l : List Char) : Nat :=
  l.foldl (fun a c => a * 10 + digitVal c) 0

theorem parseDigits_decDigits (n : Nat) : parseDigits (decDigits n) = n := by
  induction n using Nat.strong_induction_on with
  | _ n ih =>
    by_cases h : n < 10
    · rw [decDigits, dif_pos h]
      show 0 * 10 + digitVal (Nat.digitChar n) = n
      rw [digitVal_digitChar n h]
      omega
    · rw [decDigits, dif_neg h, parseDigits, List.foldl_append]
      have ihd := ih (n / 10) (Nat.div_lt_self (by omega) (by omega))
      show (parseDigits (decDigits (n / 10))) * 10 + digitVal (Nat.digitChar (n % 10)) = n
      rw [ihd, digitVal_digitChar _ (Nat.mod_lt n (by omega))]
      omega

theorem natRepr_injective : Function.Injective Nat.repr := by
  intro m n h
  rw [repr_eq_decDigits, repr_eq_decDigits] at h
  have hd : decDigits m = decDigits n := congrArg String.data h
  have hp := congrArg parseDigits hd
  rwa [parseDigits_decDigits, parseDigits_decDigits] at hp

theorem string_data_append (s t : String) : (s ++ t).data = s.data ++ t.data := by
  cases s; cases t; rfl

end LexDb

namespace LexDb

/-- The temporary id `__TEMP_<i>__` of the first rename phase
(db.ts line 969). -/
def tempId (i : Nat) : String := "__TEMP_" ++ Nat.repr i ++ "__"

/-- JavaScript `String.prototype.padStart(padWidth, '0')`. -/
def padStartZeros (s : String) (w : Nat) : String :=
  String.mk (List.replicate (w - s.length) '0' ++ s.data)

/-- The final id `prefix + numStr` assigned in the second phase
(db.ts lines 976-978). -/
def rebuildFinalId (pfx : String) (startAt padWidth : Nat) (i : Nat) : String :=
  pfx ++
    (if 0 < padWidth then padStartZeros (Nat.repr (startAt + i)) padWidth
     else Nat.repr (startAt + i))

theorem tempId_injective : Function.Injective tempId := by
  intro i j h
  have hd := congrArg String.data h
  rw [tempId, tempId, string_data_append, string_data_append,
    string_data_append, string_data_append] at hd
  have hmid := List.append_cancel_left (List.append_cancel_right hd)
  exact natRepr_injective (String.ext hmid)

theorem tempId_data_head (i : Nat) : ((tempId i).data).head? = some '_' := by
  rw [tempId, string_data_append, string_data_append,
    show ("__TEMP_" : String).data = ['_', '_', 'T', 'E', 'M', 'P', '_'] from by decide]
  rfl

theorem finalIdF_data_head (i : Nat) : (("F" ++ Nat.repr (1 + i)).data).head? = some 'F' := by
  rw [string_data_append, show ("F" : String).data = ['F'] from by decide]
  rfl

theorem tempId_ne_finalIdF (i j : Nat) : tempId i ≠ "F" ++ Nat.repr (1 + j) := by
  intro h
  have hh : ((tempId i).data).head? = (("F" ++ Nat.repr (1 + j)).data).head? := by rw [h]
  rw [tempId_data_head, finalIdF_data_head] at hh
  cases hh

theorem finalIdF_injective (i j : Nat) (h : "F" ++ Nat.repr (1 + i) = "F" ++ Nat.repr (1 + j)) :
    i = j := by
  have hd := congrArg String.data h
  rw [string_data_append, string_data_append] at hd
  have hmid := List.append_cancel_left hd
  have := natRepr_injective (String.ext hmid)
  omega

/-- Effect of `UPDATE entries SET id = new WHERE id = old` on one row. -/
def substId (oldId newId : String) (e : Entry) : Entry :=
  if e.id = oldId then { e with id := newId } else e

/-- Row-by-row processing of one id UPDATE under the PRIMARY KEY
constraint: a row matching the WHERE clause is renamed unless another row
(already processed or still pending) holds the target id, in which case
SQLite raises a constraint violation, modelled by `none`. -/
def sqlUpdateIdGo (oldId newId : String) : List Entry → List Entry → Option (List Entry)
  | done, [] => some done.reverse
  | done, e :: rest =>
    if e.id = oldId then
      if oldId = newId then sqlUpdateIdGo oldId newId (e :: done) rest
      else if done.any (fun x => x.id == newId) || rest.any (fun x => x.id == newId) then none
      else sqlUpdateIdGo oldId newId ({ e with id := newId } :: done) rest
    else sqlUpdateIdGo oldId newId (e :: done) rest

/-- One prepared-statement run `stmt.run([newId, oldId])` of the rebuild. -/
def sqlUpdateId (oldId newId : String) (t : List Entry) : Option (List Entry) :=
  sqlUpdateIdGo oldId newId [] t

/-- A sequence of id renames inside one transaction; the first constraint
violation aborts the whole sequence. -/
def applyRenames : List (String × String) → List Entry → Option (List Entry)
  | [], t => some t
  | p :: ps, t =>
    match sqlUpdateId p.1 p.2 t with
    | none => none
    | some t2 => applyRenames ps t2

/-- The id a rename sequence assigns to a row currently holding `x`
(specification helper, first matching source wins). -/
def renameOf : List (String × String) → String → String
  | [], x => x
  | p :: ps, x => if p.1 = x then p.2 else renameOf ps x

/-- The id column of a table. -/
def tableIds (t : List Entry) : List String := t.map (fun e => e.id)

end LexDb

namespace LexDb

theorem sqlUpdateIdGo_nomatch (oldId newId : String) :
    ∀ (rest done : List Entry), (∀ e ∈ rest, e.id ≠ oldId) →
      sqlUpdateIdGo oldId newId done rest = some (done.reverse ++ rest) := by
  intro rest
  induction rest with
  | nil => intro done _; simp [sqlUpdateIdGo]
  | cons e tl ih =>
    intro done h
    rw [sqlUpdateIdGo, if_neg (h e (List.mem_cons_self e tl)),
      ih (e :: done) (fun x hx => h x (List.mem_cons_of_mem e hx))]
    simp

theorem map_substId_of_nomatch (oldId newId : String) (l : List Entry)
    (h : ∀ e ∈ l, e.id ≠ oldId) : l.map (substId oldId newId) = l := by
  calc l.map (substId oldId newId)
      = l.map id := List.map_congr_left (fun e he => by rw [substId, if_neg (h e he)]; rfl)
    _ = l := List.map_id l

theorem sqlUpdateIdGo_spec (oldId newId : String) :
    ∀ (rest done : List Entry),
      (tableIds rest).Nodup → newId ∉ tableIds done → newId ∉ tableIds rest →
      sqlUpdateIdGo oldId newId done rest =
        some (done.reverse ++ rest.map (substId oldId newId)) := by
  intro rest
  induction rest with
  | nil => intro done _ _ _; simp [sqlUpdateIdGo]
  | cons e tl ih =>
    intro done hnd hdone hrest
    simp only [tableIds, List.map_cons, List.nodup_cons] at hnd
    simp only [tableIds, List.map_cons, List.mem_cons, not_or] at hrest
    by_cases he : e.id = oldId
    · have hon : ¬ oldId = newId := fun hEq => hrest.1 (by rw [← hEq, ← he])
      have hanyP : ¬ (((done.any fun x => x.id == newId) ||
          tl.any fun x => x.id == newId) = true) := by
        intro hcond
        rcases Bool.or_eq_true _ _ ▸ hcond with hc | hc
        · rcases List.any_eq_true.mp hc with ⟨x, hx, hxe⟩
          exact hdone (List.mem_map.mpr ⟨x, hx, beq_iff_eq.mp hxe⟩)
        · rcases List.any_eq_true.mp hc with ⟨x, hx, hxe⟩
          exact hrest.2 (List.mem_map.mpr ⟨x, hx, beq_iff_eq.mp hxe⟩)
      have hnomatch : ∀ x ∈ tl, x.id ≠ oldId := by
        intro x hx hEq
        exact hnd.1 (List.mem_map.mpr ⟨x, hx, by rw [hEq, he]⟩)
      rw [sqlUpdateIdGo, if_pos he, if_neg hon, if_neg hanyP,
        sqlUpdateIdGo_nomatch oldId newId tl _ hnomatch, List.map_cons,
        show substId oldId newId e = { e with id := newId } from by rw [substId, if_pos he],
        map_substId_of_nomatch oldId newId tl hnomatch]
      simp
    · rw [sqlUpdateIdGo, if_neg he,
        ih (e :: done) hnd.2
          (by
            simp only [tableIds, List.map_cons, List.mem_cons, not_or]
            exact ⟨fun hEq => hrest.1 hEq, hdone⟩)
          hrest.2,
        List.map_cons,
        show substId oldId newId e = e from by rw [substId, if_neg he]]
      simp

theorem sqlUpdateId_spec (oldId newId : String) (t : List Entry)
    (hnd : (tableIds t).Nodup) (hnew : newId ∉ tableIds t) :
    sqlUpdateId oldId newId t = some (t.map (substId oldId newId)) := by
  rw [sqlUpdateId, sqlUpdateIdGo_spec oldId newId t [] hnd (by simp [tableIds]) hnew]
  rfl

theorem substId_id_eq (oldId newId : String) (e : Entry) :
    (substId oldId newId e).id = if e.id = oldId then newId else e.id := by
  rw [substId]; split <;> rfl

theorem tableIds_map_substId (oldId newId : String) (t : List Entry) :
    tableIds (t.map (substId oldId newId)) =
      (tableIds t).map (fun x => if x = oldId then newId else x) := by
  rw [tableIds, tableIds, List.map_map, List.map_map]
  exact List.map_congr_left (fun e _ => substId_id_eq oldId newId e)

theorem nodup_rename (l : List String) (oldId newId : String)
    (hnd : l.Nodup) (hnew : newId ∉ l) :
    (l.map (fun x => if x = oldId then newId else x)).Nodup := by
  refine hnd.map_on ?_
  intro x hx y hy hEq
  by_cases hxo : x = oldId <;> by_cases hyo : y = oldId
  · rw [hxo, hyo]
  · rw [if_pos hxo, if_neg hyo] at hEq
    exact absurd (by rw [hEq]; exact hy) hnew
  · rw [if_neg hxo, if_pos hyo] at hEq
    exact absurd (by rw [← hEq]; exact hx) hnew
  · rwa [if_neg hxo, if_neg hyo] at hEq

theorem renameOf_not_mem (ps : List (String × String)) (x : String)
    (h : x ∉ ps.map Prod.fst) : renameOf ps x = x := by
  induction ps with
  | nil => rfl
  | cons p ps ih =>
    simp only [List.map_cons, List.mem_cons, not_or] at h
    rw [renameOf, if_neg (fun hEq => h.1 hEq.symm)]
    exact ih h.2

theorem renameOf_mem (ps : List (String × String)) (hnd : (ps.map Prod.fst).Nodup)
    (p : String × String) (hp : p ∈ ps) : renameOf ps p.1 = p.2 := by
  induction ps with
  | nil => cases hp
  | cons q ps ih =>
    simp only [List.map_cons, List.nodup_cons] at hnd
    rcases List.mem_cons.mp hp with rfl | hp2
    · rw [renameOf, if_pos rfl]
    · rw [renameOf]
      by_cases hq : q.1 = p.1
      · exact absurd (List.mem_map.mpr ⟨p, hp2, hq.symm⟩) hnd.1
      · rw [if_neg hq]
        exact ih hnd.2 hp2

theorem snd_nodup_unique (ps : List (String × String)) (hnd : (ps.map Prod.snd).Nodup)
    (a b : String × String) (ha : a ∈ ps) (hb : b ∈ ps) (hEq : a.2 = b.2) : a = b := by
  induction ps with
  | nil => cases ha
  | cons q ps ih =>
    simp only [List.map_cons, List.nodup_cons] at hnd
    rcases List.mem_cons.mp ha with rfl | ha2
    · rcases List.mem_cons.mp hb with rfl | hb2
      · rfl
      · exact absurd (List.mem_map.mpr ⟨b, hb2, hEq.symm⟩) hnd.1
    · rcases List.mem_cons.mp hb with rfl | hb2
      · exact absurd (List.mem_map.mpr ⟨a, ha2, hEq⟩) hnd.1
      · exact ih hnd.2 ha2 hb2

end LexDb

namespace LexDb

theorem applyRenames_append (a b : List (String × String)) (t : List Entry) :
    applyRenames (a ++ b) t =
      match applyRenames a t with
      | none => none
      | some t2 => applyRenames b t2 := by
  induction a generalizing t with
  | nil => rfl
  | cons p a ih =>
    rw [List.cons_append, applyRenames, applyRenames]
    cases sqlUpdateId p.1 p.2 t with
    | none => rfl
    | some t2 => exact ih t2

/-- A rename sequence whose targets are fresh, mutually distinct and never
reused as sources acts pointwise on the table: every row keeps its payload
and receives the id its current id is mapped to. -/
theorem applyRenames_spec (ps : List (String × String)) (t : List Entry)
    (h1 : (tableIds t).Nodup)
    (h2 : ∀ p ∈ ps, p.2 ∉ tableIds t)
    (h3 : (ps.map Prod.snd).Nodup)
    (h4 : ∀ p ∈ ps, ∀ q ∈ ps, p.2 ≠ q.1) :
    applyRenames ps t = some (t.map (fun e => { e with id := renameOf ps e.id })) := by
  induction ps generalizing t with
  | nil =>
    have hmap : t.map (fun e => { e with id := renameOf [] e.id }) = t := by
      calc t.map (fun e => { e with id := renameOf [] e.id })
          = t.map id := List.map_congr_left (fun e _ => rfl)
        _ = t := List.map_id t
    rw [applyRenames, hmap]
  | cons p ps ih =>
    obtain ⟨o, n⟩ := p
    have hn_t : n ∉ tableIds t := h2 (o, n) (List.mem_cons_self _ _)
    have hstep : sqlUpdateId o n t = some (t.map (substId o n)) :=
      sqlUpdateId_spec o n t h1 hn_t
    rw [applyRenames, hstep]
    show applyRenames ps (t.map (substId o n)) = _
    have hids : tableIds (t.map (substId o n)) =
        (tableIds t).map (fun x => if x = o then n else x) := tableIds_map_substId o n t
    simp only [List.map_cons, List.nodup_cons] at h3
    have h1' : (tableIds (t.map (substId o n))).Nodup := by
      rw [hids]; exact nodup_rename _ o n h1 hn_t
    have h2' : ∀ q ∈ ps, q.2 ∉ tableIds (t.map (substId o n)) := by
      intro q hq hmem
      rw [hids] at hmem
      rcases List.mem_map.mp hmem with ⟨x, hx, hxe⟩
      by_cases hxo : x = o
      · rw [if_pos hxo] at hxe
        exact h3.1 (by rw [hxe]; exact List.mem_map.mpr ⟨q, hq, rfl⟩)
      · rw [if_neg hxo] at hxe
        exact h2 q (List.mem_cons_of_mem _ hq) (by rw [← hxe]; exact hx)
    have h4' : ∀ a ∈ ps, ∀ b ∈ ps, a.2 ≠ b.1 := fun a ha b hb =>
      h4 a (List.mem_cons_of_mem _ ha) b (List.mem_cons_of_mem _ hb)
    rw [ih _ h1' h2' h3.2 h4']
    congr 1
    rw [List.map_map]
    refine List.map_congr_left (fun e _ => ?_)
    by_cases heo : e.id = o
    · have hsub : substId o n e = { e with id := n } := by rw [substId, if_pos heo]
      have hrn : renameOf ps n = n := by
        refine renameOf_not_mem ps n ?_
        intro hmem
        rcases List.mem_map.mp hmem with ⟨q, hq, hqe⟩
        exact h4 (o, n) (List.mem_cons_self _ _) q (List.mem_cons_of_mem _ hq) hqe.symm
      show { substId o n e with id := renameOf ps (substId o n e).id } =
        { e with id := renameOf ((o, n) :: ps) e.id }
      rw [hsub, renameOf]
      simp only [if_pos heo.symm]
      rw [hrn]
    · have hsub : substId o n e = e := by rw [substId, if_neg heo]
      show { substId o n e with id := renameOf ps (substId o n e).id } =
        { e with id := renameOf ((o, n) :: ps) e.id }
      rw [hsub, renameOf]
      simp only [if_neg (fun hEq : o = e.id => heo hEq.symm)]

end LexDb

namespace LexDb

theorem rebuildFinalId_F (i : Nat) : rebuildFinalId "F" 1 0 i = "F" ++ Nat.repr (1 + i) := by
  rw [rebuildFinalId, if_neg (by omega)]

/-- The rename sequence executed by the rebuild transaction: phase one
renames every sorted row to its temporary id (db.ts lines 966-971), phase
two renames every temporary id to the final id (db.ts lines 973-981). -/
def rebuildPhasePairs (pfx : String) (startAt padWidth : Nat) (sorted : List Entry) :
    List (String × String) :=
  sorted.enum.map (fun p => (p.2.id, tempId p.1)) ++
    sorted.enum.map (fun p => (tempId p.1, rebuildFinalId pfx startAt padWidth p.1))

/-- `rebuildLexiconIds(opts)` (db.ts lines 917-993): null-db guard, empty
SELECT short circuit, JavaScript sort with the caller comparator, the
two-phase rename inside one transaction with a single save, and the catch
branch that rolls back and returns 0 on a constraint violation. -/
def rebuildLexiconIds (st : DbState) (pfx : String) (startAt padWidth : Nat)
    (cmp : Entry → Entry → Bool) : DbState × Nat :=
  if ¬ st.dbLoaded then (st, 0)
  else if st.table.isEmpty then (st, 0)
  else
    match applyRenames (rebuildPhasePairs pfx startAt padWidth (jsSort cmp st.table))
        st.table with
    | none => (st, 0)
    | some t2 =>
      ({ st with table := t2, persistCount := st.persistCount + 1 },
       (jsSort cmp st.table).length)

/-- A store that already holds an id of the temporary form. -/
def tempCollisionSt : DbState :=
  { dbLoaded := true,
    table := [{ sampleEntry with id := "A" }, { sampleEntry with id := "__TEMP_0__" }],
    persistCount := 0 }

/-- C3 counterexample: on a two-row store whose second row already holds
the id `__TEMP_0__`, the first phase-one rename (`A` to `__TEMP_0__`)
violates the id PRIMARY KEY, the transaction rolls back, the call returns 0
and the id column stays `A`, `__TEMP_0__` instead of becoming F1, F2 - so
the temporary ids are not guaranteed unique against every store. -/
theorem claimC3_counterexample :
    (rebuildLexiconIds tempCollisionSt "F" 1 0 (fun _ _ => true)).2 = 0 ∧
    tableIds (rebuildLexiconIds tempCollisionSt "F" 1 0 (fun _ _ => true)).1.table =
      ["A", "__TEMP_0__"] ∧
    ¬ "F1" ∈ tableIds (rebuildLexiconIds tempCollisionSt "F" 1 0 (fun _ _ => true)).1.table := by
  decide

theorem mem_enum_lt {α : Type} {l : List α} {p : Nat × α} (hp : p ∈ l.enum) :
    p.1 < l.length := by
  have h1 : p.1 ∈ l.enum.map Prod.fst := List.mem_map.mpr ⟨p, hp, rfl⟩
  rw [List.enum_map_fst] at h1
  exact List.mem_range.mp h1

end LexDb

namespace LexDb

theorem insertSorted_perm (cmp : Entry → Entry → Bool) (x : Entry) (l : List Entry) :
    (insertSorted cmp x l).Perm (x :: l) := by
  induction l with
  | nil => exact List.Perm.refl _
  | cons y ys ih =>
    rw [insertSorted]
    by_cases hc : cmp x y = true
    · rw [if_pos hc]
    · rw [if_neg hc]
      exact (ih.cons y).trans (List.Perm.swap x y ys)

theorem jsSort_perm (cmp : Entry → Entry → Bool) (l : List Entry) :
    (jsSort cmp l).Perm l := by
  induction l with
  | nil => exact List.Perm.refl _
  | cons x xs ih =>
    rw [jsSort]
    exact (insertSorted_perm cmp x (jsSort cmp xs)).trans (ih.cons x)

end LexDb

namespace LexDb

/-- C3 amended: on every store whose id column is duplicate-free (the id
PRIMARY KEY invariant) and holds no id of the reserved temporary form
`__TEMP_<k>__`, running the rebuild with prefix F, startAt 1, padWidth 0
and any comparator renumbers all N entries: the resulting id column is a
permutation of F1 ... FN with no duplicates, every non-id field of every
entry is unchanged, the reported total is N, and no duplicate-id collision
arises during the transition for any overlap between the old ids and the
new F-ids, because each row is first moved to a temporary id that is fresh
for such a store. -/
theorem claimC3_amended (st : DbState) (cmp : Entry → Entry → Bool)
    (hdb : st.dbLoaded = true)
    (hnodup : (tableIds st.table).Nodup)
    (htemp : ∀ i, i < st.table.length → tempId i ∉ tableIds st.table) :
    (rebuildLexiconIds st "F" 1 0 cmp).2 = st.table.length ∧
    (tableIds (rebuildLexiconIds st "F" 1 0 cmp).1.table).Perm
      ((List.range st.table.length).map (fun i => "F" ++ Nat.repr (1 + i))) ∧
    (tableIds (rebuildLexiconIds st "F" 1 0 cmp).1.table).Nodup ∧
    ((rebuildLexiconIds st "F" 1 0 cmp).1.table.map (fun e => { e with id := "" })) =
      (st.table.map (fun e => { e with id := "" })) := by
  by_cases hemp : st.table.isEmpty
  · have htab : st.table = [] := List.isEmpty_iff.mp hemp
    have hres : rebuildLexiconIds st "F" 1 0 cmp = (st, 0) := by
      rw [rebuildLexiconIds, if_neg (by simp [hdb]), if_pos hemp]
    rw [hres]
    simp [htab, tableIds]
  · have hperm : (jsSort cmp st.table).Perm st.table := jsSort_perm cmp st.table
    set sorted := jsSort cmp st.table with hsortedDef
    have hlen : sorted.length = st.table.length := hperm.length_eq
    have hidperm : (tableIds sorted).Perm (tableIds st.table) := hperm.map _
    have hsortNodup : (tableIds sorted).Nodup := (hidperm.nodup_iff).mpr hnodup
    set ps1 := sorted.enum.map (fun p => (p.2.id, tempId p.1)) with hps1
    set ps2 := sorted.enum.map
      (fun p => (tempId p.1, rebuildFinalId "F" 1 0 p.1)) with hps2
    have hidsortEnum : tableIds sorted = sorted.enum.map (fun p => p.2.id) := by
      rw [tableIds]
      conv_lhs => rw [← List.enum_map_snd sorted]
      rw [List.map_map]
      rfl
    have hps1fst : ps1.map Prod.fst = tableIds sorted := by
      rw [hps1, List.map_map, hidsortEnum]
      rfl
    have hps1snd : ps1.map Prod.snd = (List.range sorted.length).map tempId := by
      rw [hps1, List.map_map, ← List.enum_map_fst sorted, List.map_map]
      rfl
    have hps2fst : ps2.map Prod.fst = (List.range sorted.length).map tempId := by
      rw [hps2, List.map_map, ← List.enum_map_fst sorted, List.map_map]
      rfl
    have hps2snd : ps2.map Prod.snd =
        (List.range sorted.length).map (rebuildFinalId "F" 1 0) := by
      rw [hps2, List.map_map, ← List.enum_map_fst sorted, List.map_map]
      rfl
    have htempNodup : ((List.range sorted.length).map tempId).Nodup :=
      (List.nodup_range _).map tempId_injective
    have hfinNodup : ((List.range sorted.length).map (rebuildFinalId "F" 1 0)).Nodup := by
      refine (List.nodup_range _).map_on ?_
      intro i _ j _ hEq
      rw [rebuildFinalId_F, rebuildFinalId_F] at hEq
      exact finalIdF_injective i j hEq
    have htempFresh : ∀ i, i < sorted.length → tempId i ∉ tableIds st.table := by
      intro i hi
      rw [hlen] at hi
      exact htemp i hi
    -- phase one preconditions
    have h2a : ∀ p ∈ ps1, p.2 ∉ tableIds st.table := by
      intro p hp
      rcases List.mem_map.mp hp with ⟨q, hq, rfl⟩
      exact htempFresh q.1 (mem_enum_lt hq)
    have h3a : (ps1.map Prod.snd).Nodup := by rw [hps1snd]; exact htempNodup
    have h4a : ∀ p ∈ ps1, ∀ q ∈ ps1, p.2 ≠ q.1 := by
      intro p hp q hq hEq
      rcases List.mem_map.mp hp with ⟨a, ha, rfl⟩
      have hq1 : q.1 ∈ tableIds sorted := by
        rw [← hps1fst]
        exact List.mem_map.mpr ⟨q, hq, rfl⟩
      have hq2 : q.1 ∈ tableIds st.table := (hidperm.mem_iff).mp hq1
      rw [← hEq] at hq2
      exact htempFresh a.1 (mem_enum_lt ha) hq2
    have hphase1 := applyRenames_spec ps1 st.table hnodup h2a h3a h4a
    set t1 := st.table.map (fun e => { e with id := renameOf ps1 e.id }) with ht1
    have hps1nodupFst : (ps1.map Prod.fst).Nodup := by rw [hps1fst]; exact hsortNodup
    have hren1 : ∀ p ∈ sorted.enum, renameOf ps1 p.2.id = tempId p.1 := by
      intro p hp
      exact renameOf_mem ps1 hps1nodupFst (p.2.id, tempId p.1) (List.mem_map.mpr ⟨p, hp, rfl⟩)
    have hids1 : tableIds t1 = (tableIds st.table).map (renameOf ps1) := by
      rw [ht1, tableIds, tableIds, List.map_map, List.map_map]
      rfl
    have hfindPair : ∀ x ∈ tableIds st.table, ∃ p ∈ sorted.enum, p.2.id = x := by
      intro x hx
      have hx2 : x ∈ tableIds sorted := (hidperm.mem_iff).mpr hx
      rw [hidsortEnum] at hx2
      rcases List.mem_map.mp hx2 with ⟨p, hp, hpe⟩
      exact ⟨p, hp, hpe⟩
    have hren1temps : ∀ x ∈ tableIds st.table,
        ∃ p ∈ sorted.enum, p.2.id = x ∧ renameOf ps1 x = tempId p.1 := by
      intro x hx
      rcases hfindPair x hx with ⟨p, hp, hpx⟩
      exact ⟨p, hp, hpx, by rw [← hpx]; exact hren1 p hp⟩
    have hids1Nodup : (tableIds t1).Nodup := by
      rw [hids1]
      refine hnodup.map_on ?_
      intro x hx y hy hEq
      rcases hren1temps x hx with ⟨p, hp, hpx, hrx⟩
      rcases hren1temps y hy with ⟨q, hq, hqy, hry⟩
      rw [hrx, hry] at hEq
      have hij : p.1 = q.1 := tempId_injective hEq
      have hpx2 : (x, tempId p.1) ∈ ps1 := by
        refine List.mem_map.mpr ⟨p, hp, ?_⟩
        rw [hpx]
      have hqy2 : (y, tempId p.1) ∈ ps1 := by
        refine List.mem_map.mpr ⟨q, hq, ?_⟩
        rw [hqy, hij]
      have hxy := snd_nodup_unique ps1 h3a (x, tempId p.1) (y, tempId p.1) hpx2 hqy2 rfl
      exact congrArg Prod.fst hxy
    -- phase two preconditions
    have hmem_t1_temp : ∀ y ∈ tableIds t1, ∃ j, y = tempId j := by
      intro y hy
      rw [hids1] at hy
      rcases List.mem_map.mp hy with ⟨x, hx, hxe⟩
      rcases hren1temps x hx with ⟨p, _, _, hrx⟩
      exact ⟨p.1, by rw [← hxe, hrx]⟩
    have h2b : ∀ q ∈ ps2, q.2 ∉ tableIds t1 := by
      intro q hq hmem
      rcases List.mem_map.mp hq with ⟨p, hp, rfl⟩
      rcases hmem_t1_temp _ hmem with ⟨j, hje⟩
      rw [rebuildFinalId_F] at hje
      exact tempId_ne_finalIdF j p.1 hje.symm
    have h3b : (ps2.map Prod.snd).Nodup := by rw [hps2snd]; exact hfinNodup
    have h4b : ∀ p ∈ ps2, ∀ q ∈ ps2, p.2 ≠ q.1 := by
      intro p hp q hq hEq
      rcases List.mem_map.mp hp with ⟨a, ha, rfl⟩
      rcases List.mem_map.mp hq with ⟨b, hb, rfl⟩
      rw [rebuildFinalId_F] at hEq
      exact tempId_ne_finalIdF b.1 a.1 hEq.symm
    have hphase2 := applyRenames_spec ps2 t1 hids1Nodup h2b h3b h4b
    set t2 := t1.map (fun e => { e with id := renameOf ps2 e.id }) with ht2
    have happly : applyRenames (ps1 ++ ps2) st.table = some t2 := by
      rw [applyRenames_append, hphase1]
      exact hphase2
    have hres : rebuildLexiconIds st "F" 1 0 cmp =
        ({ st with table := t2, persistCount := st.persistCount + 1 }, sorted.length) := by
      rw [rebuildLexiconIds, if_neg (by simp [hdb]), if_neg hemp]
      have hpairs : rebuildPhasePairs "F" 1 0 (jsSort cmp st.table) = ps1 ++ ps2 := rfl
      rw [hpairs, happly]
    -- the composed rename of each original id
    have hps2nodupFst : (ps2.map Prod.fst).Nodup := by rw [hps2fst]; exact htempNodup
    have hren2 : ∀ p ∈ sorted.enum, renameOf ps2 (tempId p.1) = rebuildFinalId "F" 1 0 p.1 := by
      intro p hp
      exact renameOf_mem ps2 hps2nodupFst (tempId p.1, rebuildFinalId "F" 1 0 p.1)
        (List.mem_map.mpr ⟨p, hp, rfl⟩)
    have hids2 : tableIds t2 = (tableIds st.table).map
        (fun x => renameOf ps2 (renameOf ps1 x)) := by
      rw [ht2, ht1, tableIds, tableIds, List.map_map, List.map_map, List.map_map]
      rfl
    have hcompSorted : (tableIds sorted).map (fun x => renameOf ps2 (renameOf ps1 x)) =
        (List.range sorted.length).map (fun i => "F" ++ Nat.repr (1 + i)) := by
      rw [hidsortEnum, List.map_map]
      have hpt : ∀ p ∈ sorted.enum,
          ((fun x => renameOf ps2 (renameOf ps1 x)) ∘ (fun p : Nat × Entry => p.2.id)) p =
            ((fun i => "F" ++ Nat.repr (1 + i)) ∘ Prod.fst) p := by
        intro p hp
        show renameOf ps2 (renameOf ps1 p.2.id) = "F" ++ Nat.repr (1 + p.1)
        rw [hren1 p hp, hren2 p hp, rebuildFinalId_F]
      rw [List.map_congr_left hpt, ← List.map_map, List.enum_map_fst]
    have hidst2perm : (tableIds t2).Perm
        ((List.range st.table.length).map (fun i => "F" ++ Nat.repr (1 + i))) := by
      rw [hids2, ← hlen]
      exact (List.Perm.map _ hidperm.symm).trans (by rw [hcompSorted])
    have htargetNodup :
        ((List.range st.table.length).map (fun i => "F" ++ Nat.repr (1 + i))).Nodup := by
      refine (List.nodup_range _).map_on ?_
      intro i _ j _ hEq
      exact finalIdF_injective i j hEq
    refine ⟨?_, ?_, ?_, ?_⟩
    · rw [hres]
      exact hlen
    · rw [hres]
      exact hidst2perm
    · rw [hres]
      exact (hidst2perm.nodup_iff).mpr htargetNodup
    · rw [hres]
      show t2.map (fun e => { e with id := "" }) = st.table.map (fun e => { e with id := "" })
      rw [ht2, ht1, List.map_map, List.map_map]
      exact List.map_congr_left (fun e _ => rfl)

end LexDb

namespace LexDb

/-- A two-row store whose old ids F2, F1 overlap the new ids in reversed
order, so the transition must pass through the temporary phase. -/
def rebuildWitnessSt : DbState :=
  { dbLoaded := true,
    table := [{ sampleEntry with id := "F2" }, { sampleEntry with id := "F1" }],
    persistCount := 0 }

/-- Witness for the amended C3 at a concrete overlapping store. -/
theorem claimC3_amended_witness :
    (rebuildLexiconIds rebuildWitnessSt "F" 1 0 (fun _ _ => true)).2 = 2 ∧
    (tableIds (rebuildLexiconIds rebuildWitnessSt "F" 1 0 (fun _ _ => true)).1.table).Perm
      ((List.range 2).map (fun i => "F" ++ Nat.repr (1 + i))) ∧
    (tableIds (rebuildLexiconIds rebuildWitnessSt "F" 1 0 (fun _ _ => true)).1.table).Nodup ∧
    ((rebuildLexiconIds rebuildWitnessSt "F" 1 0 (fun _ _ => true)).1.table.map
        (fun e => { e with id := "" })) =
      (rebuildWitnessSt.table.map (fun e => { e with id := "" })) :=
  claimC3_amended rebuildWitnessSt (fun _ _ => true) rfl (by decide) (by decide)

end LexDb

namespace LexDb

/-! ### C7: sweep orchestration control flow

`runValidationSweep` (App.tsx lines 344-426) and `runCorrectionSweep`
(App.tsx lines 764-901) are sequential async loops.  The models below keep
the exact control flow - the reentrancy guard, the `sweepStopRef` reads,
the per-page and per-batch structure, the budget stop via
`handleStopSweep`, the image-skip path, and the try/finally finalizer -
while the external capabilities (validator, corrector, page images) are
oracle functions of the environment.  The mutable `sweepStopRef` is
latched: it is reset once when the sweep starts, only ever set afterwards
(by the user or by `handleStopSweep`), and each read incorporates the user
requests that arrived so far, so an observed `true` stays `true`.  Reads
of the flag are logged as `check` events, each external request as a
`callOut` event and each batch application as an `applied` event. -/

/-- Fuelled slicing worker; the fuel is the list length at the outer call
and can only shrink slower than the list, so the middle branch is never
reached from `chunkList`. -/
def chunkGo {α : Type} (b : Nat) : Nat → List α → List (List α)
  | _, [] => []
  | 0, l => [l]
  | fuel + 1, x :: xs =>
    (x :: xs).take (max b 1) :: chunkGo b fuel ((x :: xs).drop (max b 1))

/-- Splitting a work list into slices of b elements (the `i += batch`
loops).  All call sites pass a positive b; `max b 1` only guards
termination. -/
def chunkList {α : Type} (b : Nat) (l : List α) : List (List α) :=
  chunkGo b l.length l

/-- `Math.ceil(n / b)` on naturals (positive b at all call sites). -/
def ceilDiv (n b : Nat) : Nat := (n + b - 1) / b

/-- Events of the validation sweep. -/
inductive ValEv
  | check (observed : Bool)
  | callOut (page : Nat)
  | applied (page : Nat)
deriving DecidableEq

/-- Environment of `runValidationSweep`: page range, resolved page entries
(`fetchEntriesBySourcePage`), the `skipValidEntries` toggle, the validator
batch size, the external validator composed with the valid/invalid status
mapping (App.tsx line 271), the request ceiling, and the user stop
requests as seen at the k-th flag read. -/
structure ValEnv where
  sweepStartPage : Nat
  sweepEndPage : Nat
  pageEntries : Nat → List Entry
  skipValid : Bool
  validatorBatchSize : Nat
  judge : List Entry → List StatusItem
  maxRequests : Option Nat
  userStop : Nat → Bool

/-- Mutable loop state of the validation sweep. -/
structure ValLoop where
  st : DbState
  used : Nat
  checkIdx : Nat
  stopRef : Bool
  processed : Nat
deriving DecidableEq

/-- The batch loop of `validateEntriesFor` (App.tsx lines 258-278): each
slice goes to the external validator and the judgments are applied as one
transactional batch update before the next slice is submitted.  No stop
check happens here. -/
def runValBatches (env : ValEnv) (page : Nat) :
    List (List Entry) → DbState → DbState × List ValEv
  | [], st => (st, [])
  | batch :: rest, st =>
    let st2 := (updateValidationStatuses st (env.judge batch) none).1
    let r := runValBatches env page rest st2
    (r.1, ValEv.callOut page :: ValEv.applied page :: r.2)

/-- Whether the request budget is exhausted (`maxRequests !== null &&
usedRequests >= maxRequests`). -/
def budgetHit (maxRequests : Option Nat) (used : Nat) : Bool :=
  match maxRequests with
  | some m => decide (m ≤ used)
  | none => false

/-- The page loop of `runValidationSweep` (App.tsx lines 369-406): read the
stop flag at the top of each iteration and break when it is set; fetch and
filter the page entries; validate them batch by batch; account the
requests and stop the sweep via `handleStopSweep` when the ceiling is
reached (skipping the processed-counter increment, exactly like the
`break` at line 401); otherwise advance the progress counter. -/
def runValPages (env : ValEnv) : List Nat → ValLoop → ValLoop × List ValEv
  | [], s => (s, [])
  | p :: rest, s =>
    let flag := s.stopRef || env.userStop s.checkIdx
    let s1 : ValLoop := { s with checkIdx := s.checkIdx + 1, stopRef := flag }
    if flag then (s1, [ValEv.check true])
    else
      let entries := env.pageEntries p
      let toValidate :=
        if env.skipValid then entries.filter (fun e => e.status == "unchecked") else entries
      if toValidate.isEmpty then
        let r := runValPages env rest { s1 with processed := s1.processed + 1 }
        (r.1, ValEv.check false :: r.2)
      else
        let b := runValBatches env p
          (chunkList (if env.validatorBatchSize = 0 then 25 else env.validatorBatchSize)
            toValidate) s1.st
        let used2 := s1.used + ceilDiv toValidate.length env.validatorBatchSize
        if budgetHit env.maxRequests used2 then
          ({ s1 with st := b.1, used := used2, stopRef := true },
           ValEv.check false :: b.2)
        else
          let r := runValPages env rest
            { s1 with st := b.1, used := used2, processed := s1.processed + 1 }
          (r.1, ValEv.check false :: (b.2 ++ r.2))

/-- Result of a validation sweep. -/
structure ValOut where
  st : DbState
  invalidCount : Nat
  invalidRefreshed : Bool
  running : Bool
  processed : Nat
  used : Nat
  events : List ValEv

/-- `runValidationSweep` (App.tsx lines 344-426): reentrancy guard, page
range normalization, the page loop, and the `finally` block that refreshes
the invalid-page count and releases the running state before control
returns. -/
def runValidationSweep (env : ValEnv) (st0 : DbState) (used0 : Nat) (running0 : Bool) :
    ValOut :=
  if running0 then
    { st := st0, invalidCount := 0, invalidRefreshed := false, running := running0,
      processed := 0, used := used0, events := [] }
  else
    let startPage := max 1 env.sweepStartPage
    let endPage := max startPage env.sweepEndPage
    let r := runValPages env (List.range' startPage (endPage - startPage + 1))
      { st := st0, used := used0, checkIdx := 0, stopRef := false, processed := 0 }
    { st := r.1.st, invalidCount := (getPagesWithInvalid r.1.st).length,
      invalidRefreshed := true, running := false, processed := r.1.processed,
      used := r.1.used, events := r.2 }

def isCallEv : ValEv → Bool
  | ValEv.callOut _ => true
  | _ => false

/-- After the first flag read that observes true, no external call event
may follow. -/
def noCallAfterStop : List ValEv → Bool
  | [] => true
  | ValEv.check b :: rest =>
    if b then rest.all (fun ev => !(isCallEv ev)) else noCallAfterStop rest
  | ValEv.callOut _ :: rest => noCallAfterStop rest
  | ValEv.applied _ :: rest => noCallAfterStop rest

/-- Every external call event is immediately followed by the application of
the batch it belongs to. -/
def callsApplied : List ValEv → Bool
  | [] => true
  | ValEv.check _ :: rest => callsApplied rest
  | ValEv.callOut p :: rest =>
    match rest with
    | ValEv.applied q :: rest2 => p == q && callsApplied rest2
    | _ => false
  | ValEv.applied _ :: rest => callsApplied rest

end LexDb

namespace LexDb

/-- Events of the correction sweep. -/
inductive CorEv
  | check (observed : Bool)
  | callOut (page : String)
  | applied (page : String)
deriving DecidableEq

/-- One correction returned by the external capability
(`EntryCorrectionResult`). -/
structure Correction where
  id : String
  hebrewWord : Option String
  hebrewConsonantal : Option String
  root : Option String
  status : String
  validationIssue : Option String
deriving DecidableEq

/-- The partial-field object the correction loop passes to
`dbService.updateEntry` (App.tsx lines 855-861); the `status` and
`validationIssue` properties it also passes are not recognized fields of
`updateEntry` and are dropped there. -/
def correctionUpdates (c : Correction) : EntryUpdates :=
  { hebrewWord := c.hebrewWord, hebrewConsonantal := c.hebrewConsonantal, root := c.root }

/-- Applying one batch of corrections (App.tsx lines 852-866): a field
update per correction, then the collected status updates as one
transactional batch. -/
def applyCorrections (st : DbState) (cs : List Correction) : DbState :=
  let st1 := cs.foldl (fun acc c => (updateEntry acc c.id (correctionUpdates c)).1) st
  if cs.isEmpty then st1
  else
    (updateValidationStatuses st1
      (cs.map (fun c => StatusItem.mk c.id c.status c.validationIssue)) none).1

/-- Environment of `runCorrectionSweep`: the optional page-number range
restriction, the page-image availability, the external corrector, the
request ceiling and the user stop requests at each flag read. -/
structure CorEnv where
  useFilter : Bool
  rangeFilter : String → Bool
  imageOk : String → Bool
  correct : List Entry → List Correction
  maxRequests : Option Nat
  userStop : Nat → Bool

/-- Mutable loop state of the correction sweep. -/
structure CorLoop where
  st : DbState
  used : Nat
  checkIdx : Nat
  stopRef : Bool
  processed : Nat
deriving DecidableEq

/-- The batch loop of the correction sweep (App.tsx lines 829-871): each
slice of at most 10 invalid entries goes to the external corrector; the
request counter then moves and, when the ceiling is reached,
`handleStopSweep` sets the stop flag and the loop breaks before the
corrections of this last batch are applied (lines 845-850); otherwise the
corrections are applied and the stop flag is read before the next slice
(line 868). -/
def runCorBatches (env : CorEnv) (page : String) :
    List (List Entry) → CorLoop → CorLoop × List CorEv
  | [], s => (s, [])
  | batch :: rest, s =>
    let corrections := env.correct batch
    let used2 := s.used + 1
    if budgetHit env.maxRequests used2 then
      ({ s with used := used2, stopRef := true }, [CorEv.callOut page])
    else
      let st2 := applyCorrections s.st corrections
      let flag := s.stopRef || env.userStop s.checkIdx
      let s2 : CorLoop :=
        { s with st := st2, used := used2, checkIdx := s.checkIdx + 1, stopRef := flag }
      if flag then (s2, [CorEv.callOut page, CorEv.applied page, CorEv.check true])
      else
        let r := runCorBatches env page rest s2
        (r.1, CorEv.callOut page :: CorEv.applied page :: CorEv.check false :: r.2)

/-- The page loop of `runCorrectionSweep` (App.tsx lines 795-879): stop
flag read at the top; a page whose image cannot be fetched (or that no
longer has invalid entries and hence yields no image candidate) is skipped
but still counted as processed; otherwise the page's invalid entries are
corrected in batches of 10; afterwards the progress counter advances and
the flag is read again (line 876). -/
def runCorPages (env : CorEnv) : List String → CorLoop → CorLoop × List CorEv
  | [], s => (s, [])
  | pageId :: rest, s =>
    let flag := s.stopRef || env.userStop s.checkIdx
    let s1 : CorLoop := { s with checkIdx := s.checkIdx + 1, stopRef := flag }
    if flag then (s1, [CorEv.check true])
    else
      let invalidEntries := getInvalidEntriesBySourcePage s1.st pageId
      if invalidEntries.isEmpty || !(env.imageOk pageId) then
        let r := runCorPages env rest { s1 with processed := s1.processed + 1 }
        (r.1, CorEv.check false :: r.2)
      else
        let b := runCorBatches env pageId (chunkList 10 invalidEntries) s1
        let s2 : CorLoop := { b.1 with processed := b.1.processed + 1 }
        let flag2 := s2.stopRef || env.userStop s2.checkIdx
        let s3 : CorLoop := { s2 with checkIdx := s2.checkIdx + 1, stopRef := flag2 }
        if flag2 then (s3, CorEv.check false :: (b.2 ++ [CorEv.check true]))
        else
          let r := runCorPages env rest s3
          (r.1, CorEv.check false :: (b.2 ++ (CorEv.check false :: r.2)))

/-- Result of a correction sweep. -/
structure CorOut where
  st : DbState
  invalidCount : Nat
  invalidRefreshed : Bool
  running : Bool
  processed : Nat
  used : Nat
  events : List CorEv

/-- `runCorrectionSweep` (App.tsx lines 764-901): reentrancy guard, target
pages computed from the pages currently holding invalid entries
(optionally range-filtered), an early return when no page qualifies (which
releases the running state but does not refresh the invalid count, lines
786-790), the page loop, and the `finally` block that refreshes the
invalid-page count and releases the running state. -/
def runCorrectionSweep (env : CorEnv) (st0 : DbState) (used0 : Nat) (running0 : Bool) :
    CorOut :=
  if running0 then
    { st := st0, invalidCount := 0, invalidRefreshed := false, running := running0,
      processed := 0, used := used0, events := [] }
  else
    let pagesAll := getPagesWithInvalid st0
    let targetPages := if env.useFilter then pagesAll.filter env.rangeFilter else pagesAll
    if targetPages.isEmpty then
      { st := st0, invalidCount := 0, invalidRefreshed := false, running := false,
        processed := 0, used := used0, events := [] }
    else
      let r := runCorPages env targetPages
        { st := st0, used := used0, checkIdx := 0, stopRef := false, processed := 0 }
      { st := r.1.st, invalidCount := (getPagesWithInvalid r.1.st).length,
        invalidRefreshed := true, running := false, processed := r.1.processed,
        used := r.1.used, events := r.2 }

def isCorCallEv : CorEv → Bool
  | CorEv.callOut _ => true
  | _ => false

/-- After the first flag read that observes true, no external call event
may follow. -/
def corNoCallAfterStop : List CorEv → Bool
  | [] => true
  | CorEv.check b :: rest =>
    if b then rest.all (fun ev => !(isCorCallEv ev)) else corNoCallAfterStop rest
  | CorEv.callOut _ :: rest => corNoCallAfterStop rest
  | CorEv.applied _ :: rest => corNoCallAfterStop rest

/-- Every external call event is immediately followed by the application of
its batch. -/
def corCallsApplied : List CorEv → Bool
  | [] => true
  | CorEv.check _ :: rest => corCallsApplied rest
  | CorEv.callOut p :: rest =>
    match rest with
    | CorEv.applied q :: rest2 => p == q && corCallsApplied rest2
    | _ => false
  | CorEv.applied _ :: rest => corCallsApplied rest

end LexDb

namespace LexDb

theorem runValBatches_nil (env : ValEnv) (page : Nat) (st : DbState) :
    runValBatches env page [] st = (st, []) := rfl

theorem runValBatches_cons (env : ValEnv) (page : Nat) (b : List Entry)
    (rest : List (List Entry)) (st : DbState) :
    runValBatches env page (b :: rest) st =
      ((runValBatches env page rest ((updateValidationStatuses st (env.judge b) none).1)).1,
       ValEv.callOut page :: ValEv.applied page ::
         (runValBatches env page rest ((updateValidationStatuses st (env.judge b) none).1)).2) :=
  rfl

theorem runValBatches_tail (env : ValEnv) (page : Nat) :
    ∀ (bs : List (List Entry)) (st : DbState) (tail : List ValEv),
      noCallAfterStop ((runValBatches env page bs st).2 ++ tail) = noCallAfterStop tail ∧
      callsApplied ((runValBatches env page bs st).2 ++ tail) = callsApplied tail := by
  intro bs
  induction bs with
  | nil => intro st tail; rw [runValBatches_nil]; exact ⟨rfl, rfl⟩
  | cons b rest ih =>
    intro st tail
    rw [runValBatches_cons]
    have hih := ih ((updateValidationStatuses st (env.judge b) none).1) tail
    constructor
    · show noCallAfterStop (ValEv.callOut page :: ValEv.applied page ::
        ((runValBatches env page rest _).2 ++ tail)) = noCallAfterStop tail
      rw [noCallAfterStop, noCallAfterStop]
      exact hih.1
    · show callsApplied (ValEv.callOut page :: ValEv.applied page ::
        ((runValBatches env page rest _).2 ++ tail)) = callsApplied tail
      rw [callsApplied]
      simp only [beq_self_eq_true, Bool.true_and]
      exact hih.2

theorem runValPages_events (env : ValEnv) :
    ∀ (pages : List Nat) (s : ValLoop),
      noCallAfterStop (runValPages env pages s).2 = true ∧
      callsApplied (runValPages env pages s).2 = true := by
  intro pages
  induction pages with
  | nil => intro s; exact ⟨rfl, rfl⟩
  | cons p rest ih =>
    intro s
    simp only [runValPages]
    by_cases hflag : (s.stopRef || env.userStop s.checkIdx) = true
    · rw [if_pos hflag]
      exact ⟨rfl, rfl⟩
    · rw [if_neg hflag]
      by_cases hemp :
          (if env.skipValid
            then (env.pageEntries p).filter (fun e => e.status == "unchecked")
            else env.pageEntries p).isEmpty
      · rw [if_pos hemp]
        refine ⟨?_, ?_⟩
        · show noCallAfterStop (ValEv.check false :: _) = true
          rw [noCallAfterStop]
          exact (ih _).1
        · show callsApplied (ValEv.check false :: _) = true
          rw [callsApplied]
          exact (ih _).2
      · rw [if_neg hemp]
        by_cases hbud : budgetHit env.maxRequests
            (s.used + ceilDiv (if env.skipValid
              then (env.pageEntries p).filter (fun e => e.status == "unchecked")
              else env.pageEntries p).length env.validatorBatchSize) = true
        · rw [if_pos hbud]
          refine ⟨?_, ?_⟩
          · show noCallAfterStop (ValEv.check false :: (runValBatches env p _ _).2) = true
            rw [noCallAfterStop, ← List.append_nil (runValBatches env p _ _).2,
              (runValBatches_tail env p _ _ []).1]
            rfl
          · show callsApplied (ValEv.check false :: (runValBatches env p _ _).2) = true
            rw [callsApplied, ← List.append_nil (runValBatches env p _ _).2,
              (runValBatches_tail env p _ _ []).2]
            rfl
        · rw [if_neg hbud]
          refine ⟨?_, ?_⟩
          · show noCallAfterStop (ValEv.check false :: ((runValBatches env p _ _).2 ++ _)) = true
            rw [noCallAfterStop, (runValBatches_tail env p _ _ _).1]
            exact (ih _).1
          · show callsApplied (ValEv.check false :: ((runValBatches env p _ _).2 ++ _)) = true
            rw [callsApplied, (runValBatches_tail env p _ _ _).2]
            exact (ih _).2

end LexDb

namespace LexDb

theorem runCorBatches_stop_events (env : CorEnv) (page : String) :
    ∀ (bs : List (List Entry)) (s : CorLoop) (tail : List CorEv),
      tail.all (fun ev => !(isCorCallEv ev)) = true →
      corNoCallAfterStop tail = true →
      corNoCallAfterStop ((runCorBatches env page bs s).2 ++ tail) = true := by
  intro bs
  induction bs with
  | nil => intro s tail _ h2; exact h2
  | cons b rest ih =>
    intro s tail h1 h2
    simp only [runCorBatches]
    by_cases hbud : budgetHit env.maxRequests (s.used + 1) = true
    · rw [if_pos hbud]
      show corNoCallAfterStop (CorEv.callOut page :: tail) = true
      rw [corNoCallAfterStop]
      exact h2
    · rw [if_neg hbud]
      by_cases hflag : (s.stopRef || env.userStop s.checkIdx) = true
      · rw [if_pos hflag]
        show corNoCallAfterStop
          (CorEv.callOut page :: CorEv.applied page :: CorEv.check true :: tail) = true
        rw [corNoCallAfterStop, corNoCallAfterStop, corNoCallAfterStop, if_pos rfl]
        exact h1
      · rw [if_neg hflag]
        show corNoCallAfterStop (CorEv.callOut page :: CorEv.applied page ::
          CorEv.check false :: ((runCorBatches env page rest _).2 ++ tail)) = true
        rw [corNoCallAfterStop, corNoCallAfterStop, corNoCallAfterStop, if_neg (by simp)]
        exact ih _ tail h1 h2

theorem runCorBatches_nostop_events (env : CorEnv) (page : String) :
    ∀ (bs : List (List Entry)) (s : CorLoop),
      (runCorBatches env page bs s).1.stopRef = false →
      ∀ tail : List CorEv,
        corNoCallAfterStop ((runCorBatches env page bs s).2 ++ tail) =
          corNoCallAfterStop tail ∧
        corCallsApplied ((runCorBatches env page bs s).2 ++ tail) =
          corCallsApplied tail := by
  intro bs
  induction bs with
  | nil => intro s _ tail; exact ⟨rfl, rfl⟩
  | cons b rest ih =>
    intro s hstop tail
    simp only [runCorBatches] at hstop ⊢
    by_cases hbud : budgetHit env.maxRequests (s.used + 1) = true
    · rw [if_pos hbud] at hstop
      exact Bool.noConfusion hstop
    · rw [if_neg hbud] at hstop ⊢
      by_cases hflag : (s.stopRef || env.userStop s.checkIdx) = true
      · rw [if_pos hflag] at hstop
        rw [show ({ s with
            st := applyCorrections s.st (env.correct b), used := s.used + 1,
            checkIdx := s.checkIdx + 1,
            stopRef := s.stopRef || env.userStop s.checkIdx } : CorLoop).stopRef =
          (s.stopRef || env.userStop s.checkIdx) from rfl, hflag] at hstop
        exact Bool.noConfusion hstop
      · rw [if_neg hflag] at hstop ⊢
        have hih := ih _ hstop tail
        constructor
        · show corNoCallAfterStop (CorEv.callOut page :: CorEv.applied page ::
            CorEv.check false :: ((runCorBatches env page rest _).2 ++ tail)) =
            corNoCallAfterStop tail
          rw [corNoCallAfterStop, corNoCallAfterStop, corNoCallAfterStop, if_neg (by simp)]
          exact hih.1
        · show corCallsApplied (CorEv.callOut page :: CorEv.applied page ::
            CorEv.check false :: ((runCorBatches env page rest _).2 ++ tail)) =
            corCallsApplied tail
          rw [corCallsApplied]
          simp only [beq_self_eq_true, Bool.true_and]
          rw [corCallsApplied]
          exact hih.2

theorem runCorBatches_applied_events (env : CorEnv) (page : String)
    (hmax : env.maxRequests = none) :
    ∀ (bs : List (List Entry)) (s : CorLoop) (tail : List CorEv),
      corCallsApplied ((runCorBatches env page bs s).2 ++ tail) = corCallsApplied tail := by
  intro bs
  induction bs with
  | nil => intro s tail; rfl
  | cons b rest ih =>
    intro s tail
    simp only [runCorBatches, hmax]
    rw [show budgetHit none (s.used + 1) = false from rfl]
    rw [if_neg (by simp)]
    by_cases hflag : (s.stopRef || env.userStop s.checkIdx) = true
    · rw [if_pos hflag]
      show corCallsApplied
        (CorEv.callOut page :: CorEv.applied page :: CorEv.check true :: tail) =
        corCallsApplied tail
      rw [corCallsApplied]
      simp only [beq_self_eq_true, Bool.true_and]
      rw [corCallsApplied]
    · rw [if_neg hflag]
      show corCallsApplied (CorEv.callOut page :: CorEv.applied page ::
        CorEv.check false :: ((runCorBatches env page rest _).2 ++ tail)) =
        corCallsApplied tail
      rw [corCallsApplied]
      simp only [beq_self_eq_true, Bool.true_and]
      rw [corCallsApplied]
      exact ih _ tail

end LexDb

namespace LexDb

theorem runCorPages_events (env : CorEnv) :
    ∀ (pages : List String) (s : CorLoop),
      corNoCallAfterStop (runCorPages env pages s).2 = true ∧
      (env.maxRequests = none → corCallsApplied (runCorPages env pages s).2 = true) := by
  intro pages
  induction pages with
  | nil => intro s; exact ⟨rfl, fun _ => rfl⟩
  | cons pageId rest ih =>
    intro s
    simp only [runCorPages]
    by_cases hflag : (s.stopRef || env.userStop s.checkIdx) = true
    · rw [if_pos hflag]
      exact ⟨rfl, fun _ => rfl⟩
    · rw [if_neg hflag]
      by_cases hskip : ((getInvalidEntriesBySourcePage s.st pageId).isEmpty
          || !(env.imageOk pageId)) = true
      · rw [if_pos hskip]
        refine ⟨?_, fun hmax => ?_⟩
        · show corNoCallAfterStop (CorEv.check false :: _) = true
          rw [corNoCallAfterStop, if_neg (by simp)]
          exact (ih _).1
        · show corCallsApplied (CorEv.check false :: _) = true
          rw [corCallsApplied]
          exact (ih _).2 hmax
      · rw [if_neg hskip]
        by_cases hflag2 : ((runCorBatches env pageId
            (chunkList 10 (getInvalidEntriesBySourcePage s.st pageId))
            { s with checkIdx := s.checkIdx + 1,
                     stopRef := s.stopRef || env.userStop s.checkIdx }).1.stopRef
          || env.userStop (runCorBatches env pageId
            (chunkList 10 (getInvalidEntriesBySourcePage s.st pageId))
            { s with checkIdx := s.checkIdx + 1,
                     stopRef := s.stopRef || env.userStop s.checkIdx }).1.checkIdx) = true
        · rw [if_pos hflag2]
          refine ⟨?_, fun hmax => ?_⟩
          · show corNoCallAfterStop (CorEv.check false :: (_ ++ [CorEv.check true])) = true
            rw [corNoCallAfterStop, if_neg (by simp)]
            exact runCorBatches_stop_events env pageId _ _ [CorEv.check true] rfl rfl
          · show corCallsApplied (CorEv.check false :: (_ ++ [CorEv.check true])) = true
            rw [corCallsApplied, runCorBatches_applied_events env pageId hmax _ _ _]
            rfl
        · rw [if_neg hflag2]
          have hb : (runCorBatches env pageId
              (chunkList 10 (getInvalidEntriesBySourcePage s.st pageId))
              { s with checkIdx := s.checkIdx + 1,
                       stopRef := s.stopRef || env.userStop s.checkIdx }).1.stopRef = false := by
            rcases Bool.eq_false_or_eq_true ((runCorBatches env pageId
              (chunkList 10 (getInvalidEntriesBySourcePage s.st pageId))
              { s with checkIdx := s.checkIdx + 1,
                       stopRef := s.stopRef || env.userStop s.checkIdx }).1.stopRef) with h0 | h0
            · exact absurd (by rw [h0]; rfl) hflag2
            · exact h0
          refine ⟨?_, fun hmax => ?_⟩
          · show corNoCallAfterStop (CorEv.check false :: (_ ++ (CorEv.check false :: _))) = true
            rw [corNoCallAfterStop, if_neg (by simp),
              (runCorBatches_nostop_events env pageId _ _ hb _).1,
              corNoCallAfterStop, if_neg (by simp)]
            exact (ih _).1
          · show corCallsApplied (CorEv.check false :: (_ ++ (CorEv.check false :: _))) = true
            rw [corCallsApplied,
              (runCorBatches_nostop_events env pageId _ _ hb _).2,
              corCallsApplied]
            exact (ih _).2 hmax

end LexDb

namespace LexDb

/-! ### C7: sweep cancellation, in-flight batches and finalization -/

/-- One stored row marked invalid on source page p1. -/
def invalidEntry : Entry :=
  { sampleEntry with
      id := "G1", status := "invalid", sourcePage := "p1",
      validationIssue := some "bad gloss" }

/-- A loaded store holding exactly the invalid row. -/
def corSweepSt : DbState :=
  { dbLoaded := true, table := [invalidEntry], persistCount := 0 }

/-- A correction environment whose request ceiling is 1, whose corrector
rewrites the Hebrew word and turns the entries valid, and in which the
user never requests a stop. -/
def corBudgetEnv : CorEnv :=
  { useFilter := false, rangeFilter := fun _ => true, imageOk := fun _ => true,
    correct := fun es => es.map (fun e =>
      { id := e.id, hebrewWord := some "אָב", hebrewConsonantal := none, root := none,
        status := "valid", validationIssue := none }),
    maxRequests := some 1, userStop := fun _ => false }

/-- The same correction environment without a request ceiling. -/
def corFreeEnv : CorEnv := { corBudgetEnv with maxRequests := none }

/-- A validation environment over the same store: one page, no ceiling, no
stop requests. -/
def valWitnessEnv : ValEnv :=
  { sweepStartPage := 1, sweepEndPage := 1, pageEntries := fun _ => corSweepSt.table,
    skipValid := false, validatorBatchSize := 5,
    judge := fun es => es.map (fun e => StatusItem.mk e.id "valid" none),
    maxRequests := none, userStop := fun _ => false }

/-- C7 is refuted on the correction sweep: with request ceiling 1 and one
page of invalid entries, the first batch call is issued, the ceiling check
then raises the stop flag and breaks before the corrections of that batch
are applied (App.tsx lines 845-850).  The event trace ends in an observed
stop preceded by a call that is never followed by its application, the
table keeps its uncorrected rows even though applying the returned
corrections would have changed it, and the identical environment without
a ceiling does apply the batch. -/
theorem claimC7_counterexample :
    (runCorrectionSweep corBudgetEnv corSweepSt 0 false).events
      = [CorEv.check false, CorEv.callOut "p1", CorEv.check true] ∧
    corCallsApplied (runCorrectionSweep corBudgetEnv corSweepSt 0 false).events = false ∧
    (runCorrectionSweep corBudgetEnv corSweepSt 0 false).st.table = corSweepSt.table ∧
    (applyCorrections corSweepSt (corBudgetEnv.correct [invalidEntry])).table
      ≠ corSweepSt.table ∧
    corCallsApplied (runCorrectionSweep corFreeEnv corSweepSt 0 false).events = true ∧
    (runCorrectionSweep corFreeEnv corSweepSt 0 false).st.table ≠ corSweepSt.table := by
  decide

/-- C7 (amended): in both sweeps the stop flag is read between page-level
units of work and after the first read that observes true no external call
event follows; the validation sweep applies every called batch, even the
one whose accounting exhausts the request ceiling; the correction sweep
applies every called batch whenever no request ceiling is set (the ceiling
path discards the in-flight batch, see the counterexample); both sweeps
release the running state before returning, the validation sweep always
refreshes the invalid-page count, and whenever the correction sweep
refreshed it the published count equals the invalid-page count of the
final store. -/
theorem claimC7_amended (venv : ValEnv) (vst0 : DbState) (vused0 : Nat)
    (cenv : CorEnv) (cst0 : DbState) (cused0 : Nat) :
    (noCallAfterStop (runValidationSweep venv vst0 vused0 false).events = true ∧
     callsApplied (runValidationSweep venv vst0 vused0 false).events = true ∧
     (runValidationSweep venv vst0 vused0 false).running = false ∧
     (runValidationSweep venv vst0 vused0 false).invalidRefreshed = true ∧
     (runValidationSweep venv vst0 vused0 false).invalidCount
       = (getPagesWithInvalid (runValidationSweep venv vst0 vused0 false).st).length) ∧
    (corNoCallAfterStop (runCorrectionSweep cenv cst0 cused0 false).events = true ∧
     (runCorrectionSweep cenv cst0 cused0 false).running = false ∧
     ((runCorrectionSweep cenv cst0 cused0 false).invalidRefreshed = true →
       (runCorrectionSweep cenv cst0 cused0 false).invalidCount
         = (getPagesWithInvalid (runCorrectionSweep cenv cst0 cused0 false).st).length) ∧
     (cenv.maxRequests = none →
       corCallsApplied (runCorrectionSweep cenv cst0 cused0 false).events = true)) := by
  have hv := runValPages_events venv
    (List.range' (max 1 venv.sweepStartPage)
      (max (max 1 venv.sweepStartPage) venv.sweepEndPage - max 1 venv.sweepStartPage + 1))
    { st := vst0, used := vused0, checkIdx := 0, stopRef := false, processed := 0 }
  refine ⟨⟨hv.1, hv.2, rfl, rfl, rfl⟩, ?_⟩
  by_cases hemp : (if cenv.useFilter then (getPagesWithInvalid cst0).filter cenv.rangeFilter
      else getPagesWithInvalid cst0).isEmpty = true
  · have hcE : runCorrectionSweep cenv cst0 cused0 false =
        { st := cst0, invalidCount := 0, invalidRefreshed := false, running := false,
          processed := 0, used := cused0, events := [] } := by
      unfold runCorrectionSweep
      simp only [reduceIte]
      rw [if_pos hemp]
      rfl
    refine ⟨?_, ?_, ?_, ?_⟩
    · rw [hcE]; rfl
    · rw [hcE]
    · rw [hcE]; intro h; exact Bool.noConfusion h
    · intro _; rw [hcE]; rfl
  · have hc := runCorPages_events cenv
      (if cenv.useFilter then (getPagesWithInvalid cst0).filter cenv.rangeFilter
       else getPagesWithInvalid cst0)
      { st := cst0, used := cused0, checkIdx := 0, stopRef := false, processed := 0 }
    have hcE : runCorrectionSweep cenv cst0 cused0 false =
        { st := (runCorPages cenv
              (if cenv.useFilter then (getPagesWithInvalid cst0).filter cenv.rangeFilter
               else getPagesWithInvalid cst0)
              { st := cst0, used := cused0, checkIdx := 0, stopRef := false,
                processed := 0 }).1.st,
          invalidCount := (getPagesWithInvalid (runCorPages cenv
              (if cenv.useFilter then (getPagesWithInvalid cst0).filter cenv.rangeFilter
               else getPagesWithInvalid cst0)
              { st := cst0, used := cused0, checkIdx := 0, stopRef := false,
                processed := 0 }).1.st).length,
          invalidRefreshed := true, running := false,
          processed := (runCorPages cenv
              (if cenv.useFilter then (getPagesWithInvalid cst0).filter cenv.rangeFilter
               else getPagesWithInvalid cst0)
              { st := cst0, used := cused0, checkIdx := 0, stopRef := false,
                processed := 0 }).1.processed,
          used := (runCorPages cenv
              (if cenv.useFilter then (getPagesWithInvalid cst0).filter cenv.rangeFilter
               else getPagesWithInvalid cst0)
              { st := cst0, used := cused0, checkIdx := 0, stopRef := false,
                processed := 0 }).1.used,
          events := (runCorPages cenv
              (if cenv.useFilter then (getPagesWithInvalid cst0).filter cenv.rangeFilter
               else getPagesWithInvalid cst0)
              { st := cst0, used := cused0, checkIdx := 0, stopRef := false,
                processed := 0 }).2 } := by
      unfold runCorrectionSweep
      simp only [reduceIte]
      rw [if_neg hemp]
      rfl
    refine ⟨?_, ?_, ?_, ?_⟩
    · rw [hcE]; exact hc.1
    · rw [hcE]
    · rw [hcE]; intro _; rfl
    · intro hmax; rw [hcE]; exact hc.2 hmax

/-- C7 witness: the ceiling-free correction environment satisfies the
hypotheses of the amended theorem, so its sweep applies every called batch
and publishes the recomputed invalid-page count. -/
theorem claimC7_amended_witness :
    corCallsApplied (runCorrectionSweep corFreeEnv corSweepSt 0 false).events = true ∧
    (runCorrectionSweep corFreeEnv corSweepSt 0 false).invalidCount
      = (getPagesWithInvalid (runCorrectionSweep corFreeEnv corSweepSt 0 false).st).length :=
  ⟨(claimC7_amended valWitnessEnv corSweepSt 0 corFreeEnv corSweepSt 0).2.2.2.2 rfl,
   (claimC7_amended valWitnessEnv corSweepSt 0 corFreeEnv corSweepSt 0).2.2.2.1 (by decide)⟩

end LexDb
